import Mathlib

/-!
Verification of the freelancer-cv-matcher pipeline.

This file gives a shallow embedding of the three core components of the
repository — the record cleaner (src/processing/clean_projects.py), the
similarity matcher (src/matching/tfidf_matcher.py) and the CV text extractor
(src/cv_parser/cv_text.py) — together with the bids-count extraction of the
scraper (src/scraping/freelancer_scraper.py), and proves or refutes the
frozen claims about them.

Modelling conventions:
* a pandas cell is a value of the inductive type Cell: missing (NaN/None),
  a string, an integer, or a list of strings.  Numeric cells are modelled as
  integers (the pipeline only ever produces integral bid counts; float
  behaviour is outside the model).
* a dataframe is a Frame: one presence flag per column the code ever touches
  plus a list of rows.  Cells of absent columns are carried along unchanged
  and ignored by every operation, exactly as a dataframe simply has no such
  column.
* Python string operations (strip, split, lower, the regexes used by the
  code) are re-implemented character by character over ASCII; the unicode
  extras of Python (exotic whitespace, non-ASCII case folding) are outside
  the model.
-/

/-- Whitespace as recognised by Python str.strip and the regex class
backslash-s (ASCII part): space, tab, newline, carriage return, vertical tab,
form feed. -/
def isPySpace (c : Char) : Bool :=
  c == ' ' || c == Char.ofNat 9 || c == Char.ofNat 10 || c == Char.ofNat 13 ||
    c == Char.ofNat 11 || c == Char.ofNat 12

/-- Drop leading and trailing whitespace from a character list. -/
def pyStripList (l : List Char) : List Char :=
  ((l.dropWhile isPySpace).reverse.dropWhile isPySpace).reverse

/-- Python str.strip(). -/
def pyStrip (s : String) : String :=
  String.mk (pyStripList s.data)

/-- The single-quote character (used by Python str.strip applied to quotes). -/
def squote : Char := Char.ofNat 39

/-- The double-quote character. -/
def dquote : Char := Char.ofNat 34

/-- Python str.strip(c): drop every leading and trailing occurrence of the
character c. -/
def stripChar (c : Char) (s : String) : String :=
  String.mk (((s.data.dropWhile (· == c)).reverse.dropWhile (· == c)).reverse)

/-- Lower-casing (ASCII), Python str.lower on the character level. -/
def pyLower (s : String) : String :=
  String.mk (s.data.map Char.toLower)

/-- Occurrence of a character list inside another (at any position). -/
def containsSub (needle : List Char) : List Char → Bool
  | [] => needle.isEmpty
  | x :: xs => needle.isPrefixOf (x :: xs) || containsSub needle xs

/-- Substring test: Python (needle in hay), as used by the blocklist regex
P1|P2|P3 of the cleaner. -/
def pyContains (hay needle : String) : Bool :=
  containsSub needle.data hay.data

/-- Python str.split(sep) for a one-character separator (empty parts kept). -/
def splitOnCharAux (c : Char) : List Char → List Char → List (List Char)
  | [], acc => [acc.reverse]
  | x :: xs, acc =>
    if x == c then acc.reverse :: splitOnCharAux c xs []
    else splitOnCharAux c xs (x :: acc)

/-- Python s.split(sep) for a one-character separator. -/
def pySplitOnChar (c : Char) (s : String) : List String :=
  (splitOnCharAux c s.data []).map String.mk

/-- A pandas cell value. -/
inductive Cell where
  | na : Cell
  | str : String → Cell
  | int : Int → Cell
  | strList : List String → Cell
deriving DecidableEq, Repr

/-- Python repr of a list of strings, which is what str(x) produces on a
skills list (pandas astype(str) applies str element-wise). -/
def pyReprStrList (xs : List String) : String :=
  "[" ++ String.intercalate ", " (xs.map (fun s => "'" ++ s ++ "'")) ++ "]"

/-- Python str(x) on a cell, as applied by pandas astype(str): a missing
value (float NaN) prints as the literal string nan. -/
def Cell.pyStr : Cell → String
  | .na => "nan"
  | .str s => s
  | .int n => toString n
  | .strList xs => pyReprStrList xs

/-- One dataframe row.  The fields list every column the pipeline touches;
whether a column actually exists in a given dataframe is recorded by the
flags of Frame. -/
structure Row where
  title : Cell
  description : Cell
  skills : Cell
  url : Cell
  budget : Cell
  time_left : Cell
  bids_count : Cell
  category : Cell
  skills_text : Cell
  match_text : Cell
deriving DecidableEq, Repr

instance : Inhabited Row :=
  ⟨⟨Cell.na, Cell.na, Cell.na, Cell.na, Cell.na, Cell.na, Cell.na, Cell.na, Cell.na, Cell.na⟩⟩

/-- A dataframe: presence flags for the columns plus the rows. -/
structure Frame where
  hasTitle : Bool
  hasDescription : Bool
  hasSkills : Bool
  hasUrl : Bool
  hasBudget : Bool
  hasTimeLeft : Bool
  hasBidsCount : Bool
  hasCategory : Bool
  hasSkillsText : Bool
  hasMatchText : Bool
  rows : List Row
deriving DecidableEq, Repr

/-! ## The record cleaner (src/processing/clean_projects.py)

clean_projects is translated step by step; each numbered step of the source
is its own definition so that the object-mutation model below and the claims
can refer to the individual steps. -/

/-- The blocked placeholder phrases of clean_projects. -/
def blocked_phrases : List String :=
  ["Please Sign Up or Login to see details",
   "Sign Up or Login to see details",
   "Please login to see details"]

/-- Case-insensitive test of df.description.str.contains(P1|P2|P3, case=False):
the three phrases contain no regex metacharacters, so the regex is a plain
alternation of substring tests. -/
def isBlockedDesc (s : String) : Bool :=
  blocked_phrases.any (fun p => pyContains (pyLower s) (pyLower p))

/-- str.contains with na=False: a missing description counts as not blocked
(at the point of use the description is always a string already). -/
def descBlocked : Cell → Bool
  | .str s => isBlockedDesc s
  | _ => false

/-- Step: the astype(str).str.strip() normalisation of title, description and
url (an in-place column assignment in the source). -/
def normStep (r : Row) : Row :=
  { r with
    title := .str (pyStrip r.title.pyStr)
    description := .str (pyStrip r.description.pyStr)
    url := .str (pyStrip r.url.pyStr) }

/-- Step: df.dropna(subset=[title, description, skills, url]). -/
def dropnaRequired (rows : List Row) : List Row :=
  rows.filter (fun r =>
    !(r.title == Cell.na || r.description == Cell.na ||
      r.skills == Cell.na || r.url == Cell.na))

/-- Step: df[(df.title != empty) and (df.description != empty) and
(df.url != empty)]. -/
def dropEmptyRequired (rows : List Row) : List Row :=
  rows.filter (fun r =>
    r.title != Cell.str "" && r.description != Cell.str "" && r.url != Cell.str "")

/-- Step: drop rows whose description matches the blocklist. -/
def dropBlocked (rows : List Row) : List Row :=
  rows.filter (fun r => !descBlocked r.description)

/-- Series.fillna(v) on one cell. -/
def fillnaCell (v : Cell) (c : Cell) : Cell :=
  if c == Cell.na then v else c

/-- Step: budget.fillna(Not specified), guarded by column presence. -/
def budgetStep (f : Frame) : Frame :=
  if f.hasBudget then
    { f with rows := f.rows.map (fun r =>
        { r with budget := fillnaCell (.str "Not specified") r.budget }) }
  else f

/-- Step: time_left.fillna(Unknown), guarded by column presence. -/
def timeLeftStep (f : Frame) : Frame :=
  if f.hasTimeLeft then
    { f with rows := f.rows.map (fun r =>
        { r with time_left := fillnaCell (.str "Unknown") r.time_left }) }
  else f

/-- Numeric value of a digit list. -/
def digitsVal (l : List Char) : Nat :=
  l.foldl (fun n c => n * 10 + (c.toNat - 48)) 0

/-- Python int(s) on a string: optional sign then decimal digits, surrounding
whitespace allowed; anything else raises ValueError.  (Underscores between
digits, also accepted by Python, are not modelled.) -/
def pyIntOfString (s : String) : Option Int :=
  let t := (pyStrip s).data
  let (sign, digits) :=
    match t with
    | '-' :: rest => ((-1 : Int), rest)
    | '+' :: rest => ((1 : Int), rest)
    | _ => ((1 : Int), t)
  if !digits.isEmpty && digits.all Char.isDigit then
    some (sign * (digitsVal digits : Int))
  else
    none

/-- astype(int) on one cell (after fillna(0) no cell is missing).  A
non-numeric string and a list raise, as Python int() does. -/
def pyIntCell : Cell → Except String Cell
  | .int n => .ok (.int n)
  | .str s =>
    match pyIntOfString s with
    | some n => .ok (.int n)
    | none => .error ("invalid literal for int() with base 10: " ++ s)
  | .strList _ => .error "int() argument must be a string or a number, not list"
  | .na => .error "cannot convert NaN to int"

/-- The element-wise astype(int) over the bids column: the first failing cell
raises. -/
def mapBids : List Row → Except String (List Row)
  | [] => .ok []
  | r :: rs =>
    match pyIntCell (fillnaCell (.int 0) r.bids_count) with
    | .error e => .error e
    | .ok b =>
      match mapBids rs with
      | .error e => .error e
      | .ok rest => .ok ({ r with bids_count := b } :: rest)

/-- Step: bids_count.fillna(0).astype(int), guarded by column presence. -/
def bidsStep (f : Frame) : Except String Frame :=
  if f.hasBidsCount then
    match mapBids f.rows with
    | .error e => .error e
    | .ok rows => .ok { f with rows := rows }
  else .ok f

/-- The helper _ensure_list of clean_projects, translated clause by clause:
a native list is returned as-is, a missing value becomes the empty list, a
bracketed string is split on commas with whitespace and quotes stripped, any
other value is stringified and split on commas. -/
def _ensure_list (x : Cell) : List String :=
  match x with
  | .strList xs => xs
  | .na => []
  | c =>
    let s := pyStrip c.pyStr
    if ['['].isPrefixOf s.data && [']'].isSuffixOf s.data then
      let s2 := String.mk s.data.tail.dropLast
      (pySplitOnChar ',' s2).filterMap (fun p =>
        if pyStrip p == "" then none
        else some (stripChar dquote (stripChar squote (pyStrip p))))
    else
      (pySplitOnChar ',' s).filterMap (fun p =>
        if pyStrip p == "" then none else some (pyStrip p))

/-- Step: skills = skills.apply(_ensure_list). -/
def skillsStep (r : Row) : Row :=
  { r with skills := .strList (_ensure_list r.skills) }

/-- The lambda building skills_text: join with spaces when the cell is a
list, otherwise str(x). -/
def skillsTextOf : Cell → String
  | .strList xs => String.intercalate " " xs
  | c => c.pyStr

/-- Step: skills_text = skills.apply(join-or-str); assigning a column that
may not exist yet creates it. -/
def skillsTextStep (f : Frame) : Frame :=
  { f with
    hasSkillsText := true
    rows := f.rows.map (fun r => { r with skills_text := .str (skillsTextOf r.skills) }) }

/-- String value of a cell for the pandas string concatenation building
match_text; at the point of use title, description and skills_text are
always strings. -/
def Cell.asStr : Cell → String
  | .str s => s
  | c => c.pyStr

/-- Step: match_text = (title + space + description + space + skills_text)
.str.strip(). -/
def matchTextStep (f : Frame) : Frame :=
  { f with
    hasMatchText := true
    rows := f.rows.map (fun r =>
      { r with match_text := .str (pyStrip
          (r.title.asStr ++ " " ++ r.description.asStr ++ " " ++ r.skills_text.asStr)) }) }

/-- df.drop_duplicates(subset=[url]): keep the first row for every url. -/
def dedupByUrlAux (seen : List Cell) : List Row → List Row
  | [] => []
  | r :: rs =>
    if r.url ∈ seen then dedupByUrlAux seen rs
    else r :: dedupByUrlAux (r.url :: seen) rs

/-- Step: drop duplicate urls, keeping the first occurrence. -/
def dedupByUrl (rows : List Row) : List Row :=
  dedupByUrlAux [] rows

/-- Everything clean_projects does after the required-column check and before
the final drop_duplicates, in source order. -/
def cleanCore (df : Frame) : Except String Frame :=
  match bidsStep (timeLeftStep (budgetStep
      { df with rows :=
          dropBlocked (dropEmptyRequired (dropnaRequired (df.rows.map normStep))) })) with
  | .error e => .error e
  | .ok f7 =>
    .ok (matchTextStep (skillsTextStep { f7 with rows := f7.rows.map skillsStep }))

/-- clean_projects(df): required-column check, the cleaning steps, then
deduplication by url.  Raised Python exceptions are the error branch. -/
def clean_projects (df : Frame) : Except String Frame :=
  if !df.hasTitle then .error "Missing required column: title"
  else if !df.hasDescription then .error "Missing required column: description"
  else if !df.hasSkills then .error "Missing required column: skills"
  else if !df.hasUrl then .error "Missing required column: url"
  else
    match cleanCore df with
    | .error e => .error e
    | .ok f => .ok { f with rows := dedupByUrl f.rows }

/-! ## Object-level model of clean_projects (for the no-mutation claim)

The source starts with df = df.copy().  Afterwards some statements mutate the
object the local name df is bound to (column assignments such as
df[title] = ...), while others rebind the name to a freshly built object
(df = df.dropna(...), df = df[mask], df = df.drop_duplicates(...)).  The
model below tracks the caller's object and the object bound to df explicitly,
so that the claim that the caller's dataframe is never mutated is a real
statement about where the in-place assignments land. -/

/-- The Python objects alive inside clean_projects: the caller's dataframe
and, once df has been rebound, the object the local name df points to
(localObj = none means df still aliases the caller's object). -/
structure PyEnv where
  callerObj : Frame
  localObj : Option Frame

/-- Value currently bound to the name df. -/
def PyEnv.dfVal (e : PyEnv) : Frame :=
  e.localObj.getD e.callerObj

/-- An in-place column assignment: mutates the object df is bound to, which
is the caller's object exactly when df still aliases it. -/
def PyEnv.mutateDf (g : Frame → Frame) (e : PyEnv) : PyEnv :=
  match e.localObj with
  | none => { e with callerObj := g e.callerObj }
  | some f => { e with localObj := some (g f) }

/-- A rebinding statement df = expression: builds a new object from the
current value of df and points df at it; the previous object is unchanged. -/
def PyEnv.rebindDf (g : Frame → Frame) (e : PyEnv) : PyEnv :=
  { e with localObj := some (g e.dfVal) }

/-- clean_projects at the object level, statement by statement in source
order.  Returns the final environment (also on the error paths, where the
raised exception propagates to the caller) together with the result. -/
def clean_projects_exec (df0 : Frame) : PyEnv × Except String Frame :=
  let e0 : PyEnv := { callerObj := df0, localObj := none }
  let e1 := e0.rebindDf id
  if !e1.dfVal.hasTitle then (e1, .error "Missing required column: title")
  else if !e1.dfVal.hasDescription then (e1, .error "Missing required column: description")
  else if !e1.dfVal.hasSkills then (e1, .error "Missing required column: skills")
  else if !e1.dfVal.hasUrl then (e1, .error "Missing required column: url")
  else
    let e2 := e1.mutateDf (fun f => { f with rows := f.rows.map normStep })
    let e3 := e2.rebindDf (fun f => { f with rows := dropnaRequired f.rows })
    let e4 := e3.rebindDf (fun f => { f with rows := dropEmptyRequired f.rows })
    let e5 := e4.rebindDf (fun f => { f with rows := dropBlocked f.rows })
    let e6 := e5.mutateDf budgetStep
    let e7 := e6.mutateDf timeLeftStep
    match bidsStep e7.dfVal with
    | .error msg => (e7, .error msg)
    | .ok f7 =>
      let e8 := (e7.mutateDf (fun _ => f7)).mutateDf
        (fun f => { f with rows := f.rows.map skillsStep })
      let e9 := e8.mutateDf skillsTextStep
      let e10 := e9.mutateDf matchTextStep
      let e11 := e10.rebindDf (fun f => { f with rows := dedupByUrl f.rows })
      (e11, .ok e11.dfVal)

/-! ## The CV text extractor (src/cv_parser/cv_text.py)

The binary document parsing done by pdfplumber and python-docx is external to
the repository; the model carries, for every existing file, the list of page
or paragraph texts those libraries would return. -/

/-- The filesystem together with the text fragments the external document
libraries extract from each file. -/
structure FileSys where
  files : List (String × List String)

/-- Whether a path exists. -/
def FileSys.pathExists (fs : FileSys) (path : String) : Bool :=
  fs.files.any (fun pr => pr.1 == path)

/-- The page or paragraph texts of a file. -/
def FileSys.pagesOf (fs : FileSys) (path : String) : List String :=
  ((fs.files.find? (fun pr => pr.1 == path)).map (fun pr => pr.2)).getD []

/-- Errors of the extractor: FileNotFoundError and the ValueError raised on
an unsupported extension. -/
inductive CvError where
  | notFound : CvError
  | unsupportedFormat : CvError
deriving DecidableEq, Repr

/-- Collapse every whitespace run to a single space (re.sub of one or more
whitespace characters with a space), tracked with a previous-was-space flag. -/
def collapseWsGo : Bool → List Char → List Char
  | _, [] => []
  | prevSpace, c :: cs =>
    if isPySpace c then
      if prevSpace then collapseWsGo true cs
      else ' ' :: collapseWsGo true cs
    else c :: collapseWsGo false cs

/-- The _clean_text helper of cv_text.py: collapse whitespace runs, then
strip. -/
def cvCleanText (s : String) : String :=
  pyStrip (String.mk (collapseWsGo false s.data))

/-- Index of the last dot in a character list, if any. -/
def lastDotIdx (l : List Char) : Option Nat :=
  (l.reverse.findIdx? (· == '.')).map (fun i => l.length - 1 - i)

/-- pathlib suffix of a path: the extension of the final path component,
empty when the last dot is absent, leading or trailing. -/
def pathSuffix (path : String) : String :=
  let name := (pySplitOnChar '/' path).getLastD ""
  match lastDotIdx name.data with
  | none => ""
  | some i => if 0 < i && i < name.length - 1 then String.mk (name.data.drop i) else ""

/-- extract_text_from_pdf: missing file raises, otherwise the non-blank page
texts are joined with newlines and cleaned. -/
def extract_text_from_pdf (fs : FileSys) (path : String) : Except CvError String :=
  if !fs.pathExists path then .error .notFound
  else .ok (cvCleanText (String.intercalate "\n"
    ((fs.pagesOf path).filter (fun t => pyStrip t != ""))))

/-- extract_text_from_docx: missing file raises, otherwise the non-blank
paragraph texts are joined with newlines and cleaned. -/
def extract_text_from_docx (fs : FileSys) (path : String) : Except CvError String :=
  if !fs.pathExists path then .error .notFound
  else .ok (cvCleanText (String.intercalate "\n"
    ((fs.pagesOf path).filter (fun t => t != "" && pyStrip t != ""))))

/-- extract_cv_text: dispatch on the lower-cased extension; anything other
than .pdf and .docx raises the unsupported-format error, before any look at
the filesystem. -/
def extract_cv_text (fs : FileSys) (path : String) : Except CvError String :=
  let ext := pyLower (pathSuffix path)
  if ext == ".pdf" then extract_text_from_pdf fs path
  else if ext == ".docx" then extract_text_from_docx fs path
  else .error .unsupportedFormat

/-- build_profile_text: the same whitespace normalisation again. -/
def build_profile_text (cv_text : String) : String :=
  cvCleanText cv_text

/-! ## The similarity matcher (src/matching/tfidf_matcher.py)

TfidfVectorizer(stop_words=english, max_features=5000) with its default
settings: lower-case, tokens are maximal runs of at least two word
characters, english stop words removed, smooth idf, l2 normalisation.
The tokenisation, vocabulary and count layer is executable; the idf weights
involve a logarithm, so the score layer lives in the real numbers and is the
idealisation of the float arithmetic of the code. -/

/-- A regex word character (ASCII part of backslash-w): letters, digits,
underscore. -/
def isWordChar (c : Char) : Bool :=
  c.isAlphanum || c == '_'

/-- Maximal runs of word characters of a character list (the accumulator
holds the current run reversed). -/
def wordRunsAux : List Char → List Char → List (List Char)
  | [], acc => if acc.isEmpty then [] else [acc.reverse]
  | c :: cs, acc =>
    if isWordChar c then wordRunsAux cs (c :: acc)
    else if acc.isEmpty then wordRunsAux cs []
    else acc.reverse :: wordRunsAux cs []

/-- The default token pattern of the vectorizer applied to the lower-cased
document: maximal word-character runs of length at least two. -/
def tokenizePy (s : String) : List String :=
  ((wordRunsAux (s.data.map Char.toLower) []).filter (fun r => 2 ≤ r.length)).map
    (fun r => String.mk r)

/-- The frozen english stop-word list shipped with scikit-learn. -/
def sklearnStopWords : List String :=
  ["a", "about", "above", "across", "after", "afterwards", "again", "against",
   "all", "almost", "alone", "along", "already", "also", "although", "always",
   "am", "among", "amongst", "amoungst", "amount", "an", "and", "another",
   "any", "anyhow", "anyone", "anything", "anyway", "anywhere", "are",
   "around", "as", "at", "back", "be", "became", "because", "become",
   "becomes", "becoming", "been", "before", "beforehand", "behind", "being",
   "below", "beside", "besides", "between", "beyond", "bill", "both",
   "bottom", "but", "by", "call", "can", "cannot", "cant", "co", "con",
   "could", "couldnt", "cry", "de", "describe", "detail", "do", "done",
   "down", "due", "during", "each", "eg", "eight", "either", "eleven",
   "else", "elsewhere", "empty", "enough", "etc", "even", "ever", "every",
   "everyone", "everything", "everywhere", "except", "few", "fifteen",
   "fifty", "fill", "find", "fire", "first", "five", "for", "former",
   "formerly", "forty", "found", "four", "from", "front", "full", "further",
   "get", "give", "go", "had", "has", "hasnt", "have", "he", "hence", "her",
   "here", "hereafter", "hereby", "herein", "hereupon", "hers", "herself",
   "him", "himself", "his", "how", "however", "hundred", "i", "ie", "if",
   "in", "inc", "indeed", "interest", "into", "is", "it", "its", "itself",
   "keep", "last", "latter", "latterly", "least", "less", "ltd", "made",
   "many", "may", "me", "meanwhile", "might", "mill", "mine", "more",
   "moreover", "most", "mostly", "move", "much", "must", "my", "myself",
   "name", "namely", "neither", "never", "nevertheless", "next", "nine",
   "no", "nobody", "none", "noone", "nor", "not", "nothing", "now",
   "nowhere", "of", "off", "often", "on", "once", "one", "only", "onto",
   "or", "other", "others", "otherwise", "our", "ours", "ourselves", "out",
   "over", "own", "part", "per", "perhaps", "please", "put", "rather", "re",
   "same", "see", "seem", "seemed", "seeming", "seems", "serious", "several",
   "she", "should", "show", "side", "since", "sincere", "six", "sixty", "so",
   "some", "somehow", "someone", "something", "sometime", "sometimes",
   "somewhere", "still", "such", "system", "take", "ten", "than", "that",
   "the", "their", "them", "themselves", "then", "thence", "there",
   "thereafter", "thereby", "therefore", "therein", "thereupon", "these",
   "they", "thick", "thin", "third", "this", "those", "though", "three",
   "through", "throughout", "thru", "thus", "to", "together", "too", "top",
   "toward", "towards", "twelve", "twenty", "two", "un", "under", "until",
   "up", "upon", "us", "very", "via", "was", "we", "well", "were", "what",
   "whatever", "when", "whence", "whenever", "where", "whereafter",
   "whereas", "whereby", "wherein", "whereupon", "wherever", "whether",
   "which", "while", "whither", "who", "whoever", "whole", "whom", "whose",
   "why", "will", "with", "within", "without", "would", "yet", "you",
   "your", "yours", "yourself", "yourselves"]

/-- The analyzer of the vectorizer: tokenize, then drop stop words. -/
def analyze (s : String) : List String :=
  (tokenizePy s).filter (fun t => !sklearnStopWords.contains t)

/-- Code-point comparison of strings (how Python sorted() compares the
vocabulary terms). -/
def charListLe : List Char → List Char → Bool
  | [], _ => true
  | _ :: _, [] => false
  | a :: as, b :: bs =>
    if a.toNat < b.toNat then true
    else if b.toNat < a.toNat then false
    else charListLe as bs

/-- Insertion into an alphabetically sorted list of terms. -/
def insertSorted (s : String) : List String → List String
  | [] => [s]
  | t :: ts => if charListLe s.data t.data then s :: t :: ts else t :: insertSorted s ts

/-- Alphabetical sort (the vectorizer sorts its vocabulary alphabetically;
on the duplicate-free term lists below, any sort agrees with the sorting of
the library). -/
def sortStrings (l : List String) : List String :=
  l.foldr insertSorted []

/-- Total count of a term across the tokenised corpus. -/
def totalCount (docs : List (List String)) (t : String) : Nat :=
  (docs.map (fun d => d.count t)).sum

/-- The max_features cap of the matcher. -/
def max_features : Nat := 5000

/-- Insertion by descending total count, used for the max_features cap
(scikit-learn keeps the terms with the highest total counts; its tie order
comes from an unstable argsort and is modelled here as count-stable). -/
def insertByCountDesc (docs : List (List String)) (s : String) :
    List String → List String
  | [] => [s]
  | t :: ts =>
    if totalCount docs t < totalCount docs s then s :: t :: ts
    else t :: insertByCountDesc docs s ts

/-- The fitted vocabulary: distinct non-stop-word tokens of the corpus,
alphabetically sorted; when more than max_features terms exist, only the
most frequent max_features of them are kept. -/
def buildVocab (corpus : List String) : List String :=
  let docs := corpus.map analyze
  let terms := sortStrings docs.flatten.dedup
  if terms.length ≤ max_features then terms
  else sortStrings ((terms.foldr (insertByCountDesc docs) []).take max_features)

/-- fit / fit_transform: raises the empty-vocabulary ValueError of
scikit-learn when the corpus yields no vocabulary (in particular on an empty
corpus), otherwise fits. -/
def fitCheck (corpus : List String) : Except String (List String) :=
  let v := buildVocab corpus
  if v = [] then
    .error "empty vocabulary; perhaps the documents only contain stop words"
  else .ok v

/-- Number of documents a term occurs in. -/
def docFreq (docs : List (List String)) (t : String) : Nat :=
  (docs.filter (fun d => d.contains t)).length

/-- Smooth idf of the vectorizer: log((1 + n) / (1 + df)) + 1. -/
noncomputable def idfOf (ndocs dfreq : Nat) : ℝ :=
  Real.log ((1 + (ndocs : ℝ)) / (1 + (dfreq : ℝ))) + 1

/-- Unnormalised tf-idf vector of a tokenised document over the vocabulary. -/
noncomputable def tfidfRow (docs : List (List String)) (vocab : List String)
    (d : List String) : List ℝ :=
  vocab.map (fun t => (d.count t : ℝ) * idfOf docs.length (docFreq docs t))

/-- Dot product of two vectors. -/
noncomputable def dotR (u v : List ℝ) : ℝ :=
  ((u.zip v).map (fun p => p.1 * p.2)).sum

/-- l2 normalisation as scikit-learn performs it: an all-zero vector is left
unchanged. -/
noncomputable def l2normalize (v : List ℝ) : List ℝ :=
  let n := Real.sqrt ((v.map (fun x => x * x)).sum)
  if n = 0 then v else v.map (fun x => x / n)

/-- cosine_similarity of two vectors: it renormalises its inputs (a second
normalisation of the already l2-normalised tf-idf rows). -/
noncomputable def cosineSim (u v : List ℝ) : ℝ :=
  dotR (l2normalize u) (l2normalize v)

/-- The similarity scores of rank: query vector against every corpus row. -/
noncomputable def simsOf (corpus : List String) (q : String) : List ℝ :=
  let docs := corpus.map analyze
  let vocab := buildVocab corpus
  let qvec := l2normalize (tfidfRow docs vocab (analyze q))
  docs.map (fun d => cosineSim qvec (l2normalize (tfidfRow docs vocab d)))

/-- Stable insertion of a value-index pair into an ascending list. -/
def insertStable {α : Type} [LinearOrder α] (v : α) (i : Nat) :
    List (α × Nat) → List (α × Nat)
  | [] => [(v, i)]
  | p :: ps => if v < p.1 then (v, i) :: p :: ps else p :: insertStable v i ps

/-- Value-index pairs sorted ascending by value, index order preserved on
ties. -/
def argsortPairs {α : Type} [LinearOrder α] (xs : List α) : List (α × Nat) :=
  xs.enum.foldl (fun acc p => insertStable p.2 p.1 acc) []

/-- Stable ascending argsort.  numpy argsort runs an insertion sort below its
small-array cutoff, which this models; the quicksort it uses on larger
arrays is not order-preserving on ties. -/
def argsortAsc {α : Type} [LinearOrder α] (xs : List α) : List Nat :=
  (argsortPairs xs).map (fun p => p.2)

/-- The descending sort order of pandas sort_values(ascending=False): the
values and indices are reversed, argsorted ascending, and the resulting
indexer reversed again (pandas nargsort). -/
def nargsortDesc {α : Type} [LinearOrder α] (xs : List α) : List Nat :=
  ((argsortAsc xs.reverse).map
    (fun i => ((List.range xs.length).reverse).getD i 0)).reverse

/-- DataFrame.head(n), which for negative n keeps all but the last rows. -/
def headPy {α : Type} (k : Int) (xs : List α) : List α :=
  if 0 ≤ k then xs.take k.toNat else xs.take (xs.length - (-k).toNat)

/-- One row of the result of match: the columns score, title, category,
budget, time_left, bids_count, url, in the order the source selects them. -/
structure MatchRow where
  score : ℝ
  title : Cell
  category : Cell
  budget : Cell
  time_left : Cell
  bids_count : Cell
  url : Cell

/-- The corpus column: match_text.fillna(empty).astype(str).tolist(). -/
def corpusOf (f : Frame) : List String :=
  f.rows.map (fun r => match r.match_text with
    | Cell.na => ""
    | c => c.pyStr)

/-- The display value of a possibly absent column: the loop of match fills a
missing column with the empty string, and with 0 for bids_count. -/
def dispCell (present : Bool) (c : Cell) (fill : Cell) : Cell :=
  if present then c else fill

/-- TfidfMatcher.match: check the match_text column, fit on the corpus, rank
the profile text, attach scores, sort descending, truncate with head, select
the result columns. -/
noncomputable def TfidfMatcher.«match» (projects_df : Frame)
    (profile_text : String) (top_k : Int) : Except String (List MatchRow) :=
  if !projects_df.hasMatchText then
    .error "projects_df must contain 'match_text'. Run cleaning first."
  else
    let corpus := corpusOf projects_df
    match fitCheck corpus with
    | .error e => .error e
    | .ok _ =>
      let sims := simsOf corpus profile_text
      let order := nargsortDesc sims
      .ok ((headPy top_k order).map (fun i =>
        let r := projects_df.rows.getD i default
        { score := sims.getD i 0
          title := dispCell projects_df.hasTitle r.title (Cell.str "")
          category := dispCell projects_df.hasCategory r.category (Cell.str "")
          budget := dispCell projects_df.hasBudget r.budget (Cell.str "")
          time_left := dispCell projects_df.hasTimeLeft r.time_left (Cell.str "")
          bids_count := dispCell projects_df.hasBidsCount r.bids_count (Cell.int 0)
          url := dispCell projects_df.hasUrl r.url (Cell.str "") }))

/-! ## Bids extraction of the scraper (src/scraping/freelancer_scraper.py) -/

/-- First maximal digit run of a character list (re.search of one or more
digits). -/
def firstDigitRun : List Char → Option (List Char)
  | [] => none
  | c :: cs =>
    if c.isDigit then some (c :: cs.takeWhile Char.isDigit)
    else firstDigitRun cs

/-- The bids-count extraction of _extract_project: absent raw text gives 0,
otherwise the first integer substring, and 0 when no digits occur. -/
def scraper_extract_bids (bids_raw : Option String) : Int :=
  match bids_raw with
  | none => 0
  | some s =>
    match firstDigitRun s.data with
    | none => 0
    | some ds => (digitsVal ds : Nat)

/-! ## Concrete example data used by the witnesses and counterexamples -/

def mkCells (t d sk u : Cell) : Row :=
  { title := t, description := d, skills := sk, url := u, budget := Cell.na,
    time_left := Cell.na, bids_count := Cell.na, category := Cell.na,
    skills_text := Cell.na, match_text := Cell.na }

/-- Two valid raw rows sharing one url. -/
def exFrame : Frame :=
  { hasTitle := true, hasDescription := true, hasSkills := true, hasUrl := true,
    hasBudget := false, hasTimeLeft := false, hasBidsCount := false,
    hasCategory := false, hasSkillsText := false, hasMatchText := false,
    rows := [mkCells (Cell.str "t") (Cell.str "d") (Cell.strList []) (Cell.str "u"),
             mkCells (Cell.str "t2") (Cell.str "d2") (Cell.strList []) (Cell.str "u")] }

def exCoreRow1 : Row :=
  { title := Cell.str "t", description := Cell.str "d", skills := Cell.strList [],
    url := Cell.str "u", budget := Cell.na, time_left := Cell.na,
    bids_count := Cell.na, category := Cell.na, skills_text := Cell.str "",
    match_text := Cell.str "t d" }

def exCoreRow2 : Row :=
  { title := Cell.str "t2", description := Cell.str "d2", skills := Cell.strList [],
    url := Cell.str "u", budget := Cell.na, time_left := Cell.na,
    bids_count := Cell.na, category := Cell.na, skills_text := Cell.str "",
    match_text := Cell.str "t2 d2" }

/-- Result of the cleaning steps on exFrame before deduplication. -/
def exCore : Frame :=
  { exFrame with hasSkillsText := true, hasMatchText := true, rows := [exCoreRow1, exCoreRow2] }

/-- Result of cleaning exFrame: the duplicate url keeps its first row. -/
def exClean : Frame :=
  { exFrame with hasSkillsText := true, hasMatchText := true, rows := [exCoreRow1] }

/-- A raw frame whose single record lacks its title. -/
def c1Frame : Frame :=
  { exFrame with rows := [mkCells Cell.na (Cell.str "backend work") (Cell.str "python") (Cell.str "u1")] }

def bidsRow (b : Cell) : Row :=
  { mkCells (Cell.str "t") (Cell.str "d") (Cell.strList []) (Cell.str "u") with bids_count := b }

def bidsRow2 (b : Cell) : Row :=
  { mkCells (Cell.str "t2") (Cell.str "d2") (Cell.strList []) (Cell.str "u2") with bids_count := b }

/-- A raw frame with a non-numeric bids_count. -/
def c5Frame : Frame :=
  { exFrame with hasBidsCount := true, rows := [bidsRow (Cell.str "abc")] }

/-- A raw frame with a missing and a numeric bids_count. -/
def c5GoodFrame : Frame :=
  { exFrame with hasBidsCount := true, rows := [bidsRow Cell.na, bidsRow2 (Cell.int 7)] }

def c5CleanRow2 : Row :=
  { title := Cell.str "t2", description := Cell.str "d2", skills := Cell.strList [],
    url := Cell.str "u2", budget := Cell.na, time_left := Cell.na,
    bids_count := Cell.int 7, category := Cell.na, skills_text := Cell.str "",
    match_text := Cell.str "t2 d2" }

def c5GoodClean : Frame :=
  { exFrame with hasBidsCount := true, hasSkillsText := true, hasMatchText := true, rows := [{ exCoreRow1 with bids_count := Cell.int 0 }, c5CleanRow2] }

def matchRow1 : Row :=
  { mkCells (Cell.str "Python API") (Cell.str "Build REST backend") (Cell.strList ["python"]) (Cell.str "u1") with match_text := Cell.str "apple pie" }

def matchRow2 : Row :=
  { mkCells (Cell.str "Logo Design") (Cell.str "Create brand logo") (Cell.strList ["illustrator"]) (Cell.str "u2") with match_text := Cell.str "banana split" }

/-- A cleaned two-document corpus frame (no category, budget, time_left or
bids_count columns). -/
def matchFrame : Frame :=
  { hasTitle := true, hasDescription := true, hasSkills := true, hasUrl := true,
    hasBudget := false, hasTimeLeft := false, hasBidsCount := false,
    hasCategory := false, hasSkillsText := true, hasMatchText := true,
    rows := [matchRow1, matchRow2] }

/-- The corpus frame with no rows at all. -/
def emptyCorpusFrame : Frame := { matchFrame with rows := [] }

/-- The result rows of matching matchFrame against an out-of-vocabulary
query with top_k = 2: both rows, in corpus order, with zero scores and the
absent display columns filled. -/
noncomputable def c10Rows : List MatchRow :=
  (headPy 2 (List.range matchFrame.rows.length)).map (fun i =>
    { score := 0
      title := dispCell matchFrame.hasTitle (matchFrame.rows.getD i default).title (Cell.str "")
      category := dispCell matchFrame.hasCategory (matchFrame.rows.getD i default).category (Cell.str "")
      budget := dispCell matchFrame.hasBudget (matchFrame.rows.getD i default).budget (Cell.str "")
      time_left := dispCell matchFrame.hasTimeLeft (matchFrame.rows.getD i default).time_left (Cell.str "")
      bids_count := dispCell matchFrame.hasBidsCount (matchFrame.rows.getD i default).bids_count (Cell.int 0)
      url := dispCell matchFrame.hasUrl (matchFrame.rows.getD i default).url (Cell.str "") })

def emptyFs : FileSys := ⟨[]⟩

/-- An input bids cell the amended claim quantifies over: missing, a
non-negative integer, or a string parsing to a non-negative integer (cells
clean rejects or drops are unconstrained). -/
def bidsInputOk : Cell → Bool
  | Cell.na => true
  | Cell.int n => decide (0 ≤ n)
  | Cell.str s =>
    match pyIntOfString s with
    | some n => decide (0 ≤ n)
    | none => true
  | Cell.strList _ => true

/-- The facts that hold of every row after a successful cleaning pass. -/
def CleanedRowFacts (hasBudget hasTimeLeft hasBids : Bool) (r : Row) : Prop :=
  (∃ t, r.title = Cell.str t ∧ pyStrip t = t ∧ t ≠ "") ∧
  (∃ d, r.description = Cell.str d ∧ pyStrip d = d ∧ d ≠ "" ∧ isBlockedDesc d = false) ∧
  (∃ u, r.url = Cell.str u ∧ pyStrip u = u ∧ u ≠ "") ∧
  (∃ xs, r.skills = Cell.strList xs) ∧
  (hasBudget = true → r.budget ≠ Cell.na) ∧
  (hasTimeLeft = true → r.time_left ≠ Cell.na) ∧
  (hasBids = true → ∃ n, r.bids_count = Cell.int n) ∧
  r.skills_text = Cell.str (skillsTextOf r.skills) ∧
  r.match_text = Cell.str (pyStrip
    (r.title.asStr ++ " " ++ r.description.asStr ++ " " ++ r.skills_text.asStr))

/-- The folding step of argsortPairs. -/
def insFold {α : Type} [LinearOrder α] (acc : List (α × Nat)) (p : Nat × α) :
    List (α × Nat) :=
  insertStable p.2 p.1 acc

/-! ## Auxiliary lemmas: stripping, deduplication, the bids map -/

theorem dropWhile_idem {α : Type} (p : α → Bool) (l : List α) :
    (l.dropWhile p).dropWhile p = l.dropWhile p := by
  induction l with
  | nil => rfl
  | cons c cs ih =>
    by_cases h : p c
    · simp [List.dropWhile_cons, h, ih]
    · simp [List.dropWhile_cons, h]

theorem dropWhile_suffix' {α : Type} (p : α → Bool) (l : List α) :
    l.dropWhile p <:+ l := by
  induction l with
  | nil => simp
  | cons c cs ih =>
    rw [List.dropWhile_cons]
    by_cases h : p c
    · simp only [h, if_true]
      exact ih.trans (List.suffix_cons c cs)
    · simp [h]

theorem dropWhile_eq_cons_head_false {α : Type} (p : α → Bool) (l : List α)
    (a : α) (t : List α) (h : l.dropWhile p = a :: t) : p a = false := by
  have h2 : (a :: t).dropWhile p = a :: t := by
    conv_lhs => rw [← h, dropWhile_idem, h]
  by_cases hp : p a
  · rw [List.dropWhile_cons] at h2
    simp only [hp, if_true] at h2
    have hle := ((dropWhile_suffix' p t).sublist).length_le
    rw [h2] at hle
    simp at hle
  · simpa using hp

theorem pyStripList_idem (l : List Char) :
    pyStripList (pyStripList l) = pyStripList l := by
  unfold pyStripList
  have hx : (l.dropWhile isPySpace).dropWhile isPySpace = l.dropWhile isPySpace :=
    dropWhile_idem _ l
  set x := l.dropWhile isPySpace with hxdef
  set y := (x.reverse.dropWhile isPySpace).reverse with hydef
  have hyrev : y.reverse = x.reverse.dropWhile isPySpace := by
    rw [hydef, List.reverse_reverse]
  have hyx : y <+: x := by
    have hsuf : x.reverse.dropWhile isPySpace <:+ x.reverse := dropWhile_suffix' _ _
    have := List.reverse_prefix.mpr hsuf
    rwa [List.reverse_reverse, ← hydef] at this
  have hAy : y.dropWhile isPySpace = y := by
    cases hy : y with
    | nil => simp
    | cons a t =>
      obtain ⟨u, hu⟩ := hyx
      rw [hy] at hu
      have hxa : l.dropWhile isPySpace = a :: (t ++ u) := by
        rw [← hxdef, ← hu]
        rfl
      have ha := dropWhile_eq_cons_head_false isPySpace l a (t ++ u) hxa
      simp [List.dropWhile_cons, ha]
  calc (((x.reverse.dropWhile isPySpace).reverse.dropWhile
          isPySpace).reverse.dropWhile isPySpace).reverse
      = ((y.dropWhile isPySpace).reverse.dropWhile isPySpace).reverse := by rw [hydef]
    _ = (y.reverse.dropWhile isPySpace).reverse := by rw [hAy]
    _ = (x.reverse.dropWhile isPySpace).reverse := by
          rw [hyrev, dropWhile_idem]
    _ = y := by rw [hydef]

theorem pyStrip_idem (s : String) : pyStrip (pyStrip s) = pyStrip s := by
  unfold pyStrip
  simp [pyStripList_idem]

theorem dedupByUrlAux_sublist (seen : List Cell) (l : List Row) :
    (dedupByUrlAux seen l).Sublist l := by
  induction l generalizing seen with
  | nil => simp [dedupByUrlAux]
  | cons r rs ih =>
    unfold dedupByUrlAux
    by_cases h : r.url ∈ seen
    · simp only [h, if_true]
      exact (ih seen).cons r
    · simp only [h, if_false]
      exact (ih (r.url :: seen)).cons₂ r

theorem dedupByUrlAux_find (seen : List Cell) (l : List Row) :
    ∀ r ∈ dedupByUrlAux seen l,
      r.url ∉ seen ∧ l.find? (fun r2 => r2.url == r.url) = some r := by
  induction l generalizing seen with
  | nil => intro r hr; simp [dedupByUrlAux] at hr
  | cons x xs ih =>
    intro r hr
    unfold dedupByUrlAux at hr
    by_cases h : x.url ∈ seen
    · simp only [h, if_true] at hr
      obtain ⟨hns, hfind⟩ := ih seen r hr
      have hne : x.url ≠ r.url := fun he => hns (he ▸ h)
      refine ⟨hns, ?_⟩
      rw [List.find?_cons_of_neg, hfind]
      simpa using hne
    · simp only [h, if_false] at hr
      rcases List.mem_cons.mp hr with hr | hr
      · subst hr
        refine ⟨h, ?_⟩
        rw [List.find?_cons_of_pos]
        simp
      · obtain ⟨hns, hfind⟩ := ih (x.url :: seen) r hr
        have hne : x.url ≠ r.url := by
          intro he
          exact hns (by rw [← he]; exact List.mem_cons_self _ _)
        refine ⟨fun hc => hns (List.mem_cons_of_mem _ hc), ?_⟩
        rw [List.find?_cons_of_neg, hfind]
        simpa using hne

theorem dedupByUrlAux_nodup (seen : List Cell) (l : List Row) :
    ((dedupByUrlAux seen l).map (fun r => r.url)).Nodup := by
  induction l generalizing seen with
  | nil => simp [dedupByUrlAux]
  | cons x xs ih =>
    unfold dedupByUrlAux
    by_cases h : x.url ∈ seen
    · simp only [h, if_true]
      exact ih seen
    · simp only [h, if_false, List.map_cons, List.nodup_cons]
      refine ⟨?_, ih (x.url :: seen)⟩
      intro hmem
      obtain ⟨r, hr, hre⟩ := List.mem_map.mp hmem
      have := (dedupByUrlAux_find (x.url :: seen) xs r hr).1
      exact this (by rw [hre]; exact List.mem_cons_self _ _)

theorem dedupByUrlAux_id (seen : List Cell) (l : List Row)
    (h1 : ∀ r ∈ l, r.url ∉ seen)
    (h2 : (l.map (fun r => r.url)).Nodup) : dedupByUrlAux seen l = l := by
  induction l generalizing seen with
  | nil => rfl
  | cons x xs ih =>
    unfold dedupByUrlAux
    have hx : x.url ∉ seen := h1 x (List.mem_cons_self _ _)
    simp only [hx, if_false]
    simp only [List.map_cons, List.nodup_cons] at h2
    congr 1
    exact ih (x.url :: seen)
      (fun r hr => by
        intro hc
        rcases List.mem_cons.mp hc with hc | hc
        · exact h2.1 (List.mem_map.mpr ⟨r, hr, hc⟩)
        · exact h1 r (List.mem_cons_of_mem _ hr) hc)
      h2.2

theorem dedupByUrl_nodup (l : List Row) :
    ((dedupByUrl l).map (fun r => r.url)).Nodup :=
  dedupByUrlAux_nodup [] l

theorem dedupByUrl_id (l : List Row)
    (h : (l.map (fun r => r.url)).Nodup) : dedupByUrl l = l :=
  dedupByUrlAux_id [] l (by simp) h

theorem mapBids_ok_mem {l l' : List Row} (h : mapBids l = .ok l') :
    ∀ y ∈ l', ∃ x ∈ l,
      y = { x with bids_count := y.bids_count } ∧
      pyIntCell (fillnaCell (Cell.int 0) x.bids_count) = .ok y.bids_count := by
  induction l generalizing l' with
  | nil =>
    intro y hy
    simp [mapBids] at h
    subst h
    simp at hy
  | cons r rs ih =>
    intro y hy
    unfold mapBids at h
    cases hb : pyIntCell (fillnaCell (Cell.int 0) r.bids_count) with
    | error e => rw [hb] at h; exact absurd h (by simp)
    | ok b =>
      rw [hb] at h
      cases hrest : mapBids rs with
      | error e => rw [hrest] at h; exact absurd h (by simp)
      | ok rest =>
        rw [hrest] at h
        injection h with h
        subst h
        rcases List.mem_cons.mp hy with hy | hy
        · subst hy
          exact ⟨r, List.mem_cons_self _ _, rfl, hb⟩
        · obtain ⟨x, hx, hxe, hxb⟩ := ih hrest y hy
          exact ⟨x, List.mem_cons_of_mem _ hx, hxe, hxb⟩

theorem mapBids_id {l : List Row}
    (h : ∀ r ∈ l, ∃ n, r.bids_count = Cell.int n) : mapBids l = .ok l := by
  induction l with
  | nil => rfl
  | cons r rs ih =>
    obtain ⟨n, hn⟩ := h r (List.mem_cons_self _ _)
    have ih' := ih (fun r hr => h r (List.mem_cons_of_mem _ hr))
    have hcell : pyIntCell (fillnaCell (Cell.int 0) (Cell.int n)) =
        Except.ok (Cell.int n) := rfl
    unfold mapBids
    rw [hn, hcell, ih']
    show Except.ok ({ r with bids_count := Cell.int n } :: rs) = Except.ok (r :: rs)
    rw [← hn]

theorem budgetStep_shape (f : Frame) : ∃ rs, budgetStep f = { f with rows := rs } := by
  unfold budgetStep
  split
  · exact ⟨_, rfl⟩
  · exact ⟨f.rows, rfl⟩

theorem timeLeftStep_shape (f : Frame) : ∃ rs, timeLeftStep f = { f with rows := rs } := by
  unfold timeLeftStep
  split
  · exact ⟨_, rfl⟩
  · exact ⟨f.rows, rfl⟩

theorem bidsStep_ok_shape {f g : Frame} (h : bidsStep f = .ok g) :
    ∃ rs, g = { f with rows := rs } := by
  unfold bidsStep at h
  split at h
  · split at h
    · exact absurd h (by simp)
    · injection h with h
      exact ⟨_, h.symm⟩
  · injection h with h
    exact ⟨f.rows, by rw [← h]⟩

theorem budgetStep_mem {f : Frame} {r : Row} (h : r ∈ (budgetStep f).rows) :
    ∃ x ∈ f.rows, r = { x with budget := r.budget } ∧
      (f.hasBudget = true → r.budget ≠ Cell.na) ∧
      (f.hasBudget = false → r.budget = x.budget) := by
  unfold budgetStep at h
  split at h
  next hb =>
    obtain ⟨x, hx, hxe⟩ := List.mem_map.mp h
    refine ⟨x, hx, ?_, ?_, ?_⟩
    · rw [← hxe]
    · intro _
      rw [← hxe]
      unfold fillnaCell
      split
      · simp
      next hne => simpa using hne
    · intro hfalse
      rw [hb] at hfalse
      exact absurd hfalse (by simp)
  next hb =>
    refine ⟨r, h, by rfl, ?_, fun _ => rfl⟩
    intro htrue
    simp [htrue] at hb

theorem timeLeftStep_mem {f : Frame} {r : Row} (h : r ∈ (timeLeftStep f).rows) :
    ∃ x ∈ f.rows, r = { x with time_left := r.time_left } ∧
      (f.hasTimeLeft = true → r.time_left ≠ Cell.na) ∧
      (f.hasTimeLeft = false → r.time_left = x.time_left) := by
  unfold timeLeftStep at h
  split at h
  next hb =>
    obtain ⟨x, hx, hxe⟩ := List.mem_map.mp h
    refine ⟨x, hx, ?_, ?_, ?_⟩
    · rw [← hxe]
    · intro _
      rw [← hxe]
      unfold fillnaCell
      split
      · simp
      next hne => simpa using hne
    · intro hfalse
      rw [hb] at hfalse
      exact absurd hfalse (by simp)
  next hb =>
    refine ⟨r, h, by rfl, ?_, fun _ => rfl⟩
    intro htrue
    simp [htrue] at hb

theorem bidsStep_mem {f g : Frame} (hg : bidsStep f = .ok g) {r : Row}
    (h : r ∈ g.rows) :
    ∃ x ∈ f.rows, r = { x with bids_count := r.bids_count } ∧
      (f.hasBidsCount = true →
        pyIntCell (fillnaCell (Cell.int 0) x.bids_count) = .ok r.bids_count) ∧
      (f.hasBidsCount = false → r.bids_count = x.bids_count) := by
  unfold bidsStep at hg
  split at hg
  next hb =>
    split at hg
    · exact absurd hg (by simp)
    next rows hm =>
      injection hg with hg
      rw [← hg] at h
      obtain ⟨x, hx, hxe, hxb⟩ := mapBids_ok_mem hm r h
      refine ⟨x, hx, hxe, fun _ => hxb, ?_⟩
      intro hfalse
      rw [hb] at hfalse
      exact absurd hfalse (by simp)
  next hb =>
    injection hg with hg
    rw [← hg] at h
    refine ⟨r, h, by rfl, ?_, fun _ => rfl⟩
    intro htrue
    simp [htrue] at hb

theorem pyIntCell_ok_int {c b : Cell} (h : pyIntCell c = .ok b) :
    ∃ n, b = Cell.int n := by
  cases c with
  | na => exact absurd h (by simp [pyIntCell])
  | int n =>
    refine ⟨n, ?_⟩
    simp [pyIntCell] at h
    exact h.symm
  | str s =>
    simp only [pyIntCell] at h
    cases hps : pyIntOfString s with
    | none => simp [hps] at h
    | some n =>
      simp [hps] at h
      exact ⟨n, h.symm⟩
  | strList xs => exact absurd h (by simp [pyIntCell])


theorem budgetStep_hasTimeLeft (f : Frame) :
    (budgetStep f).hasTimeLeft = f.hasTimeLeft := by
  obtain ⟨rs, h⟩ := budgetStep_shape f
  rw [h]

theorem budgetStep_hasBidsCount (f : Frame) :
    (budgetStep f).hasBidsCount = f.hasBidsCount := by
  obtain ⟨rs, h⟩ := budgetStep_shape f
  rw [h]

theorem timeLeftStep_hasBidsCount (f : Frame) :
    (timeLeftStep f).hasBidsCount = f.hasBidsCount := by
  obtain ⟨rs, h⟩ := timeLeftStep_shape f
  rw [h]

theorem cleanCore_ok_mem {df g : Frame} (h : cleanCore df = .ok g) :
    ∀ r ∈ g.rows, ∃ r0 ∈ df.rows,
      r.title = Cell.str (pyStrip r0.title.pyStr) ∧
      pyStrip r0.title.pyStr ≠ "" ∧
      r.description = Cell.str (pyStrip r0.description.pyStr) ∧
      pyStrip r0.description.pyStr ≠ "" ∧
      isBlockedDesc (pyStrip r0.description.pyStr) = false ∧
      r.url = Cell.str (pyStrip r0.url.pyStr) ∧
      pyStrip r0.url.pyStr ≠ "" ∧
      r0.skills ≠ Cell.na ∧
      r.skills = Cell.strList (_ensure_list r0.skills) ∧
      r.skills_text = Cell.str (skillsTextOf r.skills) ∧
      r.match_text = Cell.str (pyStrip
        (r.title.asStr ++ " " ++ r.description.asStr ++ " " ++ r.skills_text.asStr)) ∧
      (df.hasBudget = true → r.budget ≠ Cell.na) ∧
      (df.hasBudget = false → r.budget = r0.budget) ∧
      (df.hasTimeLeft = true → r.time_left ≠ Cell.na) ∧
      (df.hasTimeLeft = false → r.time_left = r0.time_left) ∧
      (df.hasBidsCount = true →
        pyIntCell (fillnaCell (Cell.int 0) r0.bids_count) = .ok r.bids_count) ∧
      (df.hasBidsCount = false → r.bids_count = r0.bids_count) ∧
      r.category = r0.category := by
  unfold cleanCore at h
  split at h
  · exact absurd h (by simp)
  next f7 heq =>
    injection h with h
    subst h
    intro r hr
    simp only [matchTextStep, skillsTextStep, List.mem_map] at hr
    obtain ⟨r9, ⟨r8, ⟨r7, hr7, hr8⟩, hr9⟩, hrEq⟩ := hr
    obtain ⟨x2, hx2mem, hx2eq, hbidT, hbidF⟩ := bidsStep_mem heq hr7
    obtain ⟨x1, hx1mem, hx1eq, htlT, htlF⟩ := timeLeftStep_mem hx2mem
    obtain ⟨x0, hx0mem, hx0eq, hbuT, hbuF⟩ := budgetStep_mem hx1mem
    have hx0mem2 : x0 ∈ dropBlocked (dropEmptyRequired (dropnaRequired
        (df.rows.map normStep))) := hx0mem
    simp only [dropBlocked, dropEmptyRequired, dropnaRequired, List.mem_filter,
      List.mem_map] at hx0mem2
    obtain ⟨⟨⟨⟨r0, hr0mem, hnorm⟩, hcondNa⟩, hcondEmpty⟩, hcondBlocked⟩ := hx0mem2
    simp only [Bool.and_eq_true, bne_iff_ne, ne_eq] at hcondEmpty
    simp at hcondNa
    subst hrEq hr9 hr8
    -- fields of the normalised row
    have hT : x0.title = Cell.str (pyStrip r0.title.pyStr) := by rw [← hnorm]; rfl
    have hD : x0.description = Cell.str (pyStrip r0.description.pyStr) := by
      rw [← hnorm]; rfl
    have hU : x0.url = Cell.str (pyStrip r0.url.pyStr) := by rw [← hnorm]; rfl
    have hS : x0.skills = r0.skills := by rw [← hnorm]; rfl
    have hC : x0.category = r0.category := by rw [← hnorm]; rfl
    have hB : x0.budget = r0.budget := by rw [← hnorm]; rfl
    have hTL : x0.time_left = r0.time_left := by rw [← hnorm]; rfl
    have hBC : x0.bids_count = r0.bids_count := by rw [← hnorm]; rfl
    -- fields of the row after the fill steps
    have eT : r7.title = x0.title := by rw [hx2eq, hx1eq, hx0eq]
    have eD : r7.description = x0.description := by rw [hx2eq, hx1eq, hx0eq]
    have eU : r7.url = x0.url := by rw [hx2eq, hx1eq, hx0eq]
    have eS : r7.skills = x0.skills := by rw [hx2eq, hx1eq, hx0eq]
    have eC : r7.category = x0.category := by rw [hx2eq, hx1eq, hx0eq]
    have eB : r7.budget = x1.budget := by rw [hx2eq, hx1eq]
    have eTL : r7.time_left = x2.time_left := by rw [hx2eq]
    have eBC : x2.bids_count = x0.bids_count := by rw [hx1eq, hx0eq]
    -- non-emptiness facts from the filters
    have hTne : pyStrip r0.title.pyStr ≠ "" := by
      intro he
      apply hcondEmpty.1.1
      rw [hT, he]
    have hDne : pyStrip r0.description.pyStr ≠ "" := by
      intro he
      apply hcondEmpty.1.2
      rw [hD, he]
    have hUne : pyStrip r0.url.pyStr ≠ "" := by
      intro he
      apply hcondEmpty.2
      rw [hU, he]
    have hSna : r0.skills ≠ Cell.na := by
      rw [← hS]
      exact hcondNa.1.2
    have hDblock : isBlockedDesc (pyStrip r0.description.pyStr) = false := by
      have hdb : descBlocked x0.description = false := by simpa using hcondBlocked
      rw [hD] at hdb
      exact hdb
    refine ⟨r0, hr0mem, ?_, hTne, ?_, hDne, hDblock, ?_, hUne, hSna, ?_, ?_, ?_,
      ?_, ?_, ?_, ?_, ?_, ?_, ?_⟩
    · show (skillsStep r7).title = _
      simp [skillsStep, eT, hT]
    · show (skillsStep r7).description = _
      simp [skillsStep, eD, hD]
    · show (skillsStep r7).url = _
      simp [skillsStep, eU, hU]
    · show (skillsStep r7).skills = _
      simp [skillsStep, eS, hS]
    · show Cell.str (skillsTextOf (skillsStep r7).skills) = _
      rfl
    · rfl
    · intro hb
      show (skillsStep r7).budget ≠ Cell.na
      have hx := hbuT hb
      rw [← eB] at hx
      simpa [skillsStep] using hx
    · intro hb
      show (skillsStep r7).budget = r0.budget
      have hx := hbuF hb
      have : r7.budget = x0.budget := by rw [eB, hx]
      rw [hB] at this
      simpa [skillsStep] using this
    · intro hb
      show (skillsStep r7).time_left ≠ Cell.na
      have hx := htlT (by rw [budgetStep_hasTimeLeft]; exact hb)
      rw [← eTL] at hx
      simpa [skillsStep] using hx
    · intro hb
      show (skillsStep r7).time_left = r0.time_left
      have hx := htlF (by rw [budgetStep_hasTimeLeft]; exact hb)
      have : r7.time_left = x0.time_left := by rw [eTL, hx, hx0eq]
      rw [hTL] at this
      simpa [skillsStep] using this
    · intro hb
      show pyIntCell (fillnaCell (Cell.int 0) r0.bids_count) =
        Except.ok (skillsStep r7).bids_count
      have hx := hbidT (by rw [timeLeftStep_hasBidsCount, budgetStep_hasBidsCount]; exact hb)
      rw [eBC, hBC] at hx
      simpa [skillsStep] using hx
    · intro hb
      show (skillsStep r7).bids_count = r0.bids_count
      have hx := hbidF (by rw [timeLeftStep_hasBidsCount, budgetStep_hasBidsCount]; exact hb)
      rw [eBC, hBC] at hx
      simpa [skillsStep] using hx
    · show (skillsStep r7).category = r0.category
      simp [skillsStep, eC, hC]

theorem map_id_of_mem {α : Type} {f : α → α} {l : List α}
    (h : ∀ x ∈ l, f x = x) : l.map f = l := by
  induction l with
  | nil => rfl
  | cons x xs ih =>
    rw [List.map_cons, h x (List.mem_cons_self _ _),
      ih (fun y hy => h y (List.mem_cons_of_mem _ hy))]

theorem filter_id_of_mem {α : Type} {p : α → Bool} {l : List α}
    (h : ∀ x ∈ l, p x = true) : l.filter p = l :=
  List.filter_eq_self.mpr h

theorem fillnaCell_of_ne_na {v c : Cell} (h : c ≠ Cell.na) :
    fillnaCell v c = c := by
  unfold fillnaCell
  rw [if_neg]
  simpa using h

/-- A second cleaning pass leaves a cleaned frame unchanged. -/
theorem cleanCore_cleaned_id {g : Frame}
    (hst : g.hasSkillsText = true) (hmt : g.hasMatchText = true)
    (hrows : ∀ r ∈ g.rows,
      CleanedRowFacts g.hasBudget g.hasTimeLeft g.hasBidsCount r) :
    cleanCore g = .ok g := by
  have hnorm : g.rows.map normStep = g.rows := by
    apply map_id_of_mem
    intro r hr
    obtain ⟨⟨t, ht, htt, _⟩, ⟨d, hd, hdt, _, _⟩, ⟨u, hu, hut, _⟩, _⟩ := hrows r hr
    unfold normStep
    rw [ht, hd, hu]
    show { r with title := Cell.str (pyStrip t),
                  description := Cell.str (pyStrip d),
                  url := Cell.str (pyStrip u) } = r
    rw [htt, hdt, hut, ← ht, ← hd, ← hu]
  have hdropna : dropnaRequired g.rows = g.rows := by
    apply filter_id_of_mem
    intro r hr
    obtain ⟨⟨t, ht, _, _⟩, ⟨d, hd, _, _, _⟩, ⟨u, hu, _, _⟩, ⟨xs, hxs⟩, _⟩ := hrows r hr
    simp [ht, hd, hu, hxs]
  have hdropempty : dropEmptyRequired g.rows = g.rows := by
    apply filter_id_of_mem
    intro r hr
    obtain ⟨⟨t, ht, _, htne⟩, ⟨d, hd, _, hdne, _⟩, ⟨u, hu, _, hune⟩, _⟩ := hrows r hr
    simp [ht, hd, hu, htne, hdne, hune]
  have hdropblocked : dropBlocked g.rows = g.rows := by
    apply filter_id_of_mem
    intro r hr
    obtain ⟨_, ⟨d, hd, _, _, hdb⟩, _⟩ := hrows r hr
    simp [hd, descBlocked, hdb]
  have hbud : budgetStep g = g := by
    unfold budgetStep
    split
    next hb =>
      have : g.rows.map (fun r =>
          { r with budget := fillnaCell (.str "Not specified") r.budget }) = g.rows := by
        apply map_id_of_mem
        intro r hr
        obtain ⟨_, _, _, _, hbudF, _⟩ := hrows r hr
        rw [fillnaCell_of_ne_na (hbudF hb)]
      rw [this]
    next => rfl
  have htl : timeLeftStep g = g := by
    unfold timeLeftStep
    split
    next hb =>
      have : g.rows.map (fun r =>
          { r with time_left := fillnaCell (.str "Unknown") r.time_left }) = g.rows := by
        apply map_id_of_mem
        intro r hr
        obtain ⟨_, _, _, _, _, htlF, _⟩ := hrows r hr
        rw [fillnaCell_of_ne_na (htlF hb)]
      rw [this]
    next => rfl
  have hbids : bidsStep g = .ok g := by
    unfold bidsStep
    split
    next hb =>
      rw [mapBids_id]
      intro r hr
      obtain ⟨_, _, _, _, _, _, hbidF, _⟩ := hrows r hr
      exact hbidF hb
    next => rfl
  have hskl : g.rows.map skillsStep = g.rows := by
    apply map_id_of_mem
    intro r hr
    obtain ⟨_, _, _, ⟨xs, hxs⟩, _⟩ := hrows r hr
    unfold skillsStep
    rw [hxs]
    show { r with skills := Cell.strList xs } = r
    rw [← hxs]
  have hstx : skillsTextStep g = g := by
    unfold skillsTextStep
    have : g.rows.map (fun r =>
        { r with skills_text := .str (skillsTextOf r.skills) }) = g.rows := by
      apply map_id_of_mem
      intro r hr
      obtain ⟨_, _, _, _, _, _, _, hstF, _⟩ := hrows r hr
      rw [← hstF]
    rw [this, ← hst]
  have hmtx : matchTextStep g = g := by
    unfold matchTextStep
    have : g.rows.map (fun r =>
        { r with match_text := .str (pyStrip
          (r.title.asStr ++ " " ++ r.description.asStr ++ " " ++ r.skills_text.asStr)) })
        = g.rows := by
      apply map_id_of_mem
      intro r hr
      obtain ⟨_, _, _, _, _, _, _, _, hmtF⟩ := hrows r hr
      rw [← hmtF]
    rw [this, ← hmt]
  unfold cleanCore
  rw [hnorm, hdropna, hdropempty, hdropblocked]
  show (match bidsStep (timeLeftStep (budgetStep g)) with
    | Except.error e => Except.error e
    | Except.ok f7 =>
      Except.ok (matchTextStep (skillsTextStep
        { f7 with rows := f7.rows.map skillsStep })))
    = Except.ok g
  rw [hbud, htl, hbids]
  show Except.ok (matchTextStep (skillsTextStep
      { g with rows := g.rows.map skillsStep }))
    = Except.ok g
  rw [hskl]
  show Except.ok (matchTextStep (skillsTextStep g)) = Except.ok g
  rw [hstx, hmtx]

/-- Shape of a successful cleanCore: the input frame with the two derived
columns added and the rows transformed. -/
theorem cleanCore_ok_shape {df g : Frame} (h : cleanCore df = .ok g) :
    ∃ rs, g = { df with hasSkillsText := true, hasMatchText := true, rows := rs } := by
  unfold cleanCore at h
  split at h
  · exact absurd h (by simp)
  next f7 heq =>
    injection h with h
    obtain ⟨rs1, h1⟩ := bidsStep_ok_shape heq
    obtain ⟨rs2, h2⟩ := timeLeftStep_shape (budgetStep { df with rows := dropBlocked (dropEmptyRequired (dropnaRequired (df.rows.map normStep))) })
    obtain ⟨rs3, h3⟩ := budgetStep_shape { df with rows := dropBlocked (dropEmptyRequired (dropnaRequired (df.rows.map normStep))) }
    rw [← h, h1, h2, h3]
    simp only [matchTextStep, skillsTextStep]
    exact ⟨_, rfl⟩

/-- Decomposition of a successful clean_projects run: the required columns
are present, cleanCore succeeds, and only the final deduplication follows. -/
theorem clean_projects_ok_decomp {df g : Frame} (h : clean_projects df = .ok g) :
    df.hasTitle = true ∧ df.hasDescription = true ∧ df.hasSkills = true ∧
    df.hasUrl = true ∧
    ∃ g0, cleanCore df = .ok g0 ∧ g = { g0 with rows := dedupByUrl g0.rows } := by
  unfold clean_projects at h
  split at h
  · exact absurd h (by simp)
  split at h
  · exact absurd h (by simp)
  split at h
  · exact absurd h (by simp)
  split at h
  · exact absurd h (by simp)
  next h1 h2 h3 h4 =>
    refine ⟨by simpa using h1, by simpa using h2, by simpa using h3, by simpa using h4, ?_⟩
    split at h
    · exact absurd h (by simp)
    next g0 hcore =>
      injection h with h
      exact ⟨g0, hcore, h.symm⟩

/-- The rows of a cleaned frame satisfy the cleaned-row facts (with respect to
the optional-column flags of the input). -/
theorem clean_projects_ok_facts {df g : Frame} (h : clean_projects df = .ok g) :
    ∀ r ∈ g.rows,
      CleanedRowFacts df.hasBudget df.hasTimeLeft df.hasBidsCount r := by
  obtain ⟨_, _, _, _, g0, hcore, hg⟩ := clean_projects_ok_decomp h
  intro r hr
  rw [hg] at hr
  have hr0 : r ∈ g0.rows := (dedupByUrlAux_sublist [] g0.rows).mem hr
  obtain ⟨r0, _, hT, hTne, hD, hDne, hDb, hU, hUne, _, hSk, hSt, hMt,
    hbuT, _, htlT, _, hbiT, hbiF, _⟩ := cleanCore_ok_mem hcore r hr0
  refine ⟨⟨_, hT, pyStrip_idem _, hTne⟩, ⟨_, hD, pyStrip_idem _, hDne, hDb⟩,
    ⟨_, hU, pyStrip_idem _, hUne⟩, ⟨_, hSk⟩, hbuT, htlT, ?_, hSt, hMt⟩
  intro hb
  exact pyIntCell_ok_int (hbiT hb)

/-- Flags of the cleaned frame. -/
theorem clean_projects_ok_shape {df g : Frame} (h : clean_projects df = .ok g) :
    ∃ rs, g = { df with hasSkillsText := true, hasMatchText := true, rows := rs } := by
  obtain ⟨_, _, _, _, g0, hcore, hg⟩ := clean_projects_ok_decomp h
  obtain ⟨rs0, h0⟩ := cleanCore_ok_shape hcore
  rw [hg, h0]
  exact ⟨_, rfl⟩

/-- Urls are unique after cleaning. -/
theorem clean_projects_ok_nodup {df g : Frame} (h : clean_projects df = .ok g) :
    (g.rows.map (fun r => r.url)).Nodup := by
  obtain ⟨_, _, _, _, g0, hcore, hg⟩ := clean_projects_ok_decomp h
  rw [hg]
  exact dedupByUrl_nodup g0.rows

/-- clean_projects is idempotent on its successful results. -/
theorem clean_projects_idem {df g : Frame} (h : clean_projects df = .ok g) :
    clean_projects g = .ok g := by
  obtain ⟨hti, hde, hsk, hur, g0, hcore, hg⟩ := clean_projects_ok_decomp h
  obtain ⟨rs, hshape⟩ := clean_projects_ok_shape h
  have hfacts := clean_projects_ok_facts h
  have hnodup := clean_projects_ok_nodup h
  have hgti : g.hasTitle = true := by rw [hshape]; exact hti
  have hgde : g.hasDescription = true := by rw [hshape]; exact hde
  have hgsk : g.hasSkills = true := by rw [hshape]; exact hsk
  have hgur : g.hasUrl = true := by rw [hshape]; exact hur
  have hgst : g.hasSkillsText = true := by rw [hshape]
  have hgmt : g.hasMatchText = true := by rw [hshape]
  have hgbu : g.hasBudget = df.hasBudget := by rw [hshape]
  have hgtl : g.hasTimeLeft = df.hasTimeLeft := by rw [hshape]
  have hgbi : g.hasBidsCount = df.hasBidsCount := by rw [hshape]
  have hcoreg : cleanCore g = .ok g := by
    apply cleanCore_cleaned_id hgst hgmt
    rw [hgbu, hgtl, hgbi]
    exact hfacts
  unfold clean_projects
  rw [hgti, hgde, hgsk, hgur]
  simp only [Bool.not_true, Bool.false_eq_true, if_false]
  rw [hcoreg]
  show Except.ok { g with rows := dedupByUrl g.rows } = Except.ok g
  rw [dedupByUrl_id g.rows hnodup]

theorem clean_projects_exec_caller (df : Frame) :
    (clean_projects_exec df).1.callerObj = df := by
  cases hti : df.hasTitle <;> cases hde : df.hasDescription <;>
    cases hsk : df.hasSkills <;> cases hur : df.hasUrl <;>
    simp [clean_projects_exec, PyEnv.rebindDf, PyEnv.mutateDf, PyEnv.dfVal,
      hti, hde, hsk, hur]
  split <;> rfl

theorem clean_projects_exec_result (df : Frame) :
    (clean_projects_exec df).2 = clean_projects df := by
  cases hti : df.hasTitle <;> cases hde : df.hasDescription <;>
    cases hsk : df.hasSkills <;> cases hur : df.hasUrl <;>
    simp [clean_projects_exec, clean_projects, cleanCore, PyEnv.rebindDf,
      PyEnv.mutateDf, PyEnv.dfVal, hti, hde, hsk, hur]
  split <;> rfl

/-! ## Auxiliary lemmas for the matcher -/

theorem insertStable_length {α : Type} [LinearOrder α] (v : α) (i : Nat)
    (l : List (α × Nat)) : (insertStable v i l).length = l.length + 1 := by
  induction l with
  | nil => rfl
  | cons p ps ih =>
    unfold insertStable
    split
    · simp
    · simp [ih]

theorem mem_insertStable {α : Type} [LinearOrder α] {v : α} {i : Nat}
    {l : List (α × Nat)} {q : α × Nat} (h : q ∈ insertStable v i l) :
    q = (v, i) ∨ q ∈ l := by
  induction l with
  | nil => simpa [insertStable] using h
  | cons p ps ih =>
    unfold insertStable at h
    split at h
    · rcases List.mem_cons.mp h with h | h
      · exact Or.inl h
      · exact Or.inr h
    · rcases List.mem_cons.mp h with h | h
      · exact Or.inr (h ▸ List.mem_cons_self _ _)
      · rcases ih h with h | h
        · exact Or.inl h
        · exact Or.inr (List.mem_cons_of_mem _ h)

theorem chain'_insertStable {α : Type} [LinearOrder α] (v : α) (i : Nat)
    {l : List (α × Nat)} (h : l.Chain' (fun a b => a.1 ≤ b.1)) :
    (insertStable v i l).Chain' (fun a b => a.1 ≤ b.1) := by
  induction l with
  | nil => simp [insertStable]
  | cons p ps ih =>
    unfold insertStable
    split
    next hlt =>
      exact h.cons' (fun b hb => by
        cases hb
        exact le_of_lt hlt)
    next hge =>
      have hle : p.1 ≤ v := le_of_not_lt hge
      obtain ⟨hhead, htail⟩ := List.chain'_cons'.mp h
      refine List.chain'_cons'.mpr ⟨?_, ih htail⟩
      intro b hb
      cases ps with
      | nil =>
        simp [insertStable] at hb
        subst hb
        exact hle
      | cons u us =>
        unfold insertStable at hb
        split at hb
        · simp at hb
          subst hb
          exact hle
        · simp at hb
          subst hb
          exact hhead u rfl

theorem foldl_insFold_length {α : Type} [LinearOrder α] (l : List (Nat × α))
    (acc : List (α × Nat)) :
    (l.foldl insFold acc).length = acc.length + l.length := by
  induction l generalizing acc with
  | nil => simp
  | cons p ps ih =>
    rw [List.foldl_cons, ih]
    simp [insFold, insertStable_length]
    omega

theorem foldl_insFold_mem {α : Type} [LinearOrder α] {l : List (Nat × α)}
    {acc : List (α × Nat)} {q : α × Nat} (h : q ∈ l.foldl insFold acc) :
    q ∈ acc ∨ (q.2, q.1) ∈ l := by
  induction l generalizing acc with
  | nil => exact Or.inl h
  | cons p ps ih =>
    rw [List.foldl_cons] at h
    rcases ih h with h | h
    · rcases mem_insertStable h with h | h
      · right
        rw [h]
        exact List.mem_cons_self _ _
      · exact Or.inl h
    · exact Or.inr (List.mem_cons_of_mem _ h)

theorem foldl_insFold_chain {α : Type} [LinearOrder α] (l : List (Nat × α))
    {acc : List (α × Nat)} (h : acc.Chain' (fun a b => a.1 ≤ b.1)) :
    (l.foldl insFold acc).Chain' (fun a b => a.1 ≤ b.1) := by
  induction l generalizing acc with
  | nil => exact h
  | cons p ps ih =>
    rw [List.foldl_cons]
    exact ih (chain'_insertStable _ _ h)

theorem argsortPairs_length {α : Type} [LinearOrder α] (xs : List α) :
    (argsortPairs xs).length = xs.length := by
  unfold argsortPairs
  show (List.foldl insFold [] xs.enum).length = xs.length
  rw [foldl_insFold_length]
  simp

theorem argsortPairs_mem {α : Type} [LinearOrder α] {xs : List α} {q : α × Nat}
    (h : q ∈ argsortPairs xs) : xs[q.2]? = some q.1 := by
  unfold argsortPairs at h
  have h2 : q ∈ List.foldl insFold [] xs.enum := h
  rcases foldl_insFold_mem h2 with h3 | h3
  · simp at h3
  · exact (List.mem_enum_iff_getElem?).mp h3

theorem argsortPairs_chain {α : Type} [LinearOrder α] (xs : List α) :
    (argsortPairs xs).Chain' (fun a b => a.1 ≤ b.1) := by
  unfold argsortPairs
  show (List.foldl insFold [] xs.enum).Chain' (fun a b => a.1 ≤ b.1)
  exact foldl_insFold_chain _ (by simp)

theorem argsortAsc_length {α : Type} [LinearOrder α] (xs : List α) :
    (argsortAsc xs).length = xs.length := by
  unfold argsortAsc
  rw [List.length_map, argsortPairs_length]

theorem nargsortDesc_length {α : Type} [LinearOrder α] (xs : List α) :
    (nargsortDesc xs).length = xs.length := by
  unfold nargsortDesc
  rw [List.length_reverse, List.length_map, argsortAsc_length, List.length_reverse]

theorem argsortAsc_mem_lt {α : Type} [LinearOrder α] {xs : List α} {i : Nat}
    (h : i ∈ argsortAsc xs) : i < xs.length := by
  unfold argsortAsc at h
  obtain ⟨q, hq, hqe⟩ := List.mem_map.mp h
  have := argsortPairs_mem hq
  rw [hqe] at this
  exact (List.getElem?_eq_some.mp this).1

/-- The values read off along the ascending argsort are the sorted values. -/
theorem argsortAsc_vals {α : Type} [LinearOrder α] (xs : List α) (d : α) :
    (argsortAsc xs).map (fun i => xs.getD i d) =
      (argsortPairs xs).map (fun p => p.1) := by
  unfold argsortAsc
  rw [List.map_map]
  apply List.map_congr_left
  intro p hp
  have := argsortPairs_mem hp
  simp only [Function.comp]
  rw [List.getD_eq_getD_get?, List.get?_eq_getElem?, this]
  rfl

theorem nargsortDesc_vals {α : Type} [LinearOrder α] (xs : List α) (d : α) :
    (nargsortDesc xs).map (fun i => xs.getD i d) =
      ((argsortPairs xs.reverse).map (fun p => p.1)).reverse := by
  unfold nargsortDesc
  rw [List.map_reverse]
  congr 1
  rw [List.map_map, ← argsortAsc_vals xs.reverse d]
  apply List.map_congr_left
  intro i hi
  have hlt : i < xs.reverse.length := argsortAsc_mem_lt hi
  rw [List.length_reverse] at hlt
  have hrange : ((List.range xs.length).reverse.getD i 0) = xs.length - 1 - i := by
    rw [List.getD_eq_getD_get?, List.get?_eq_getElem?,
      List.getElem?_reverse (by simpa using hlt), List.length_range,
      List.getElem?_range (by omega)]
    rfl
  simp only [Function.comp, hrange]
  rw [List.getD_eq_getD_get?, List.getD_eq_getD_get?, List.get?_eq_getElem?,
    List.get?_eq_getElem?, List.getElem?_reverse hlt]

theorem chain'_map_flip {α : Type} [LinearOrder α] (l : List (α × Nat))
    (h : l.Chain' (fun a b => a.1 ≤ b.1)) :
    (l.map (fun p => p.1)).Chain' (fun a b : α => a ≤ b) := by
  rw [List.chain'_map]
  exact h

theorem nargsortDesc_vals_chain {α : Type} [LinearOrder α] (xs : List α) (d : α) :
    ((nargsortDesc xs).map (fun i => xs.getD i d)).Chain' (fun a b => b ≤ a) := by
  rw [nargsortDesc_vals, List.chain'_reverse]
  have := chain'_map_flip _ (argsortPairs_chain xs.reverse)
  exact this.imp (fun a b hab => hab)

theorem nargsortDesc_idx_chain {α : Type} [LinearOrder α] (xs : List α) (d : α) :
    (nargsortDesc xs).Chain' (fun i j => xs.getD j d ≤ xs.getD i d) := by
  have := nargsortDesc_vals_chain xs d
  rw [List.chain'_map] at this
  exact this

theorem headPy_chain {α : Type} {R : α → α → Prop} {l : List α}
    (h : l.Chain' R) (k : Int) : (headPy k l).Chain' R := by
  unfold headPy
  split
  · exact h.take _
  · exact h.take _

theorem insertStable_all_eq {α : Type} [LinearOrder α] (x : α) (i : Nat)
    (l : List (α × Nat)) (h : ∀ p ∈ l, p.1 = x) :
    insertStable x i l = l ++ [(x, i)] := by
  induction l with
  | nil => rfl
  | cons p ps ih =>
    unfold insertStable
    have hp : p.1 = x := h p (List.mem_cons_self _ _)
    rw [if_neg (by rw [hp]; exact lt_irrefl x)]
    rw [ih (fun q hq => h q (List.mem_cons_of_mem _ hq))]
    rfl

theorem foldl_insFold_all_eq {α : Type} [LinearOrder α] (x : α)
    (l : List (Nat × α)) (acc : List (α × Nat)) (hl : ∀ p ∈ l, p.2 = x)
    (hacc : ∀ p ∈ acc, p.1 = x) :
    l.foldl insFold acc = acc ++ l.map (fun p => (p.2, p.1)) := by
  induction l generalizing acc with
  | nil => simp
  | cons p ps ih =>
    rw [List.foldl_cons]
    have hp : p.2 = x := hl p (List.mem_cons_self _ _)
    have hins : insFold acc p = acc ++ [(p.2, p.1)] := by
      unfold insFold
      exact insertStable_all_eq p.2 p.1 acc
        (fun q hq => by rw [hp]; exact hacc q hq)
    rw [hins, ih (acc ++ [(p.2, p.1)])
      (fun q hq => hl q (List.mem_cons_of_mem _ hq))
      (by
        intro q hq
        rcases List.mem_append.mp hq with hq | hq
        · exact hacc q hq
        · simp at hq
          rw [hq]
          exact hp)]
    simp

theorem argsortAsc_replicate {α : Type} [LinearOrder α] (n : Nat) (x : α) :
    argsortAsc (List.replicate n x) = List.range n := by
  unfold argsortAsc argsortPairs
  show (List.foldl insFold [] (List.replicate n x).enum).map (fun p => p.2)
    = List.range n
  rw [foldl_insFold_all_eq x _ [] ?hl (by simp)]
  case hl =>
    intro p hp
    have := (List.mem_enum_iff_getElem?).mp hp
    have h2 := List.getElem?_mem this
    simpa using (List.eq_of_mem_replicate h2)
  rw [List.nil_append, List.map_map]
  have : ((fun p : α × Nat => p.2) ∘ fun p : Nat × α => (p.2, p.1)) = Prod.fst := by
    funext p
    rfl
  rw [this, List.enum_map_fst, List.length_replicate]

theorem reverse_map_sub_range (n : Nat) :
    ((List.range n).map (fun i => n - 1 - i)).reverse = List.range n := by
  apply List.ext_getElem?
  intro k
  by_cases hk : k < n
  · rw [List.getElem?_reverse (by simpa using hk), List.length_map,
      List.length_range]
    rw [List.getElem?_map, List.getElem?_range (by omega), List.getElem?_range hk]
    simp
    omega
  · rw [List.getElem?_eq_none (by simpa using le_of_not_lt hk),
      List.getElem?_eq_none (by simp [List.length_range]; omega)]

theorem nargsortDesc_replicate {α : Type} [LinearOrder α] (n : Nat) (x : α) :
    nargsortDesc (List.replicate n x) = List.range n := by
  unfold nargsortDesc
  rw [List.reverse_replicate, argsortAsc_replicate, List.length_replicate]
  have hmap : (List.range n).map
      (fun i => ((List.range n).reverse.getD i 0)) =
      (List.range n).map (fun i => n - 1 - i) := by
    apply List.map_congr_left
    intro i hi
    have hilt : i < n := by simpa using hi
    rw [List.getD_eq_getD_get?, List.get?_eq_getElem?,
      List.getElem?_reverse (by simpa using hilt), List.length_range,
      List.getElem?_range (by omega)]
    rfl
  rw [hmap, reverse_map_sub_range]

theorem tfidfRow_zero (docs : List (List String)) (vocab : List String)
    (q : List String) (h : ∀ t ∈ vocab, q.count t = 0) :
    tfidfRow docs vocab q = List.replicate vocab.length 0 := by
  have h0 : tfidfRow docs vocab q = vocab.map (fun _ => (0 : ℝ)) := by
    unfold tfidfRow
    apply List.map_congr_left
    intro t ht
    rw [h t ht]
    simp
  rw [h0, List.map_const']

theorem l2normalize_replicate_zero (m : Nat) :
    l2normalize (List.replicate m 0) = List.replicate m (0 : ℝ) := by
  unfold l2normalize
  have hsq : (List.replicate m (0 : ℝ)).map (fun x => x * x) =
      List.replicate m (0 : ℝ) := by
    have h1 : (List.replicate m (0 : ℝ)).map (fun x => x * x) =
        (List.replicate m (0 : ℝ)).map (fun _ => (0 : ℝ)) := by
      apply List.map_congr_left
      intro x hx
      rw [List.eq_of_mem_replicate hx]
      simp
    rw [h1, List.map_const', List.length_replicate]
  rw [hsq]
  simp

theorem dotR_replicate_zero_left (m : Nat) (v : List ℝ) :
    dotR (List.replicate m 0) v = 0 := by
  unfold dotR
  induction v generalizing m with
  | nil => simp
  | cons y ys ih =>
    cases m with
    | zero => simp
    | succ m =>
      rw [List.replicate_succ, List.zip_cons_cons, List.map_cons, List.sum_cons]
      have := ih m
      simp only at this
      rw [this]
      simp

theorem cosineSim_replicate_zero_left (m : Nat) (v : List ℝ) :
    cosineSim (List.replicate m 0) v = 0 := by
  unfold cosineSim
  rw [l2normalize_replicate_zero, dotR_replicate_zero_left]

theorem simsOf_oov (corpus : List String) (q : String)
    (h : ∀ t ∈ buildVocab corpus, (analyze q).count t = 0) :
    simsOf corpus q = List.replicate corpus.length 0 := by
  simp only [simsOf]
  rw [tfidfRow_zero _ _ _ h, l2normalize_replicate_zero]
  have h2 : (corpus.map analyze).map (fun d =>
      cosineSim (List.replicate (buildVocab corpus).length 0)
        (l2normalize (tfidfRow (corpus.map analyze) (buildVocab corpus) d))) =
      (corpus.map analyze).map (fun _ => (0 : ℝ)) := by
    apply List.map_congr_left
    intro d hd
    exact cosineSim_replicate_zero_left _ _
  rw [h2, List.map_const', List.length_map]

theorem getD_replicate_zero (n i : Nat) :
    (List.replicate n (0 : ℝ)).getD i 0 = 0 := by
  rw [List.getD_eq_getD_get?, List.get?_eq_getElem?, List.getElem?_replicate]
  split <;> rfl

theorem headPy_length {α : Type} (k : Int) (xs : List α) :
    (headPy k xs).length =
      if 0 ≤ k then min k.toNat xs.length else xs.length - (-k).toNat := by
  unfold headPy
  split
  · simp
  · simp

theorem headPy_map {α β : Type} (g : α → β) (k : Int) (xs : List α) :
    headPy k (xs.map g) = (headPy k xs).map g := by
  unfold headPy
  rw [List.length_map]
  split
  · rw [List.map_take]
  · rw [List.map_take]

theorem simsOf_length (corpus : List String) (q : String) :
    (simsOf corpus q).length = corpus.length := by
  simp only [simsOf]
  rw [List.length_map, List.length_map]

theorem corpusOf_length (f : Frame) : (corpusOf f).length = f.rows.length :=
  List.length_map _ _

/-- Length of a successful match result: head applied to one row index per
corpus document. -/
theorem match_ok_length {f : Frame} {q : String} {k : Int} {rs : List MatchRow}
    (h : TfidfMatcher.«match» f q k = .ok rs) :
    rs.length =
      if 0 ≤ k then min k.toNat f.rows.length
      else f.rows.length - (-k).toNat := by
  simp only [TfidfMatcher.«match»] at h
  split at h
  · exact absurd h (by simp)
  split at h
  · exact absurd h (by simp)
  · injection h with h
    rw [← h, List.length_map, headPy_length, nargsortDesc_length, simsOf_length,
      corpusOf_length]

/-- Every successful match result is sorted by score descending (returned
rows read scores off the similarity list along the pandas descending order). -/
theorem match_ok_chain {f : Frame} {q : String} {k : Int} {rs : List MatchRow}
    (h : TfidfMatcher.«match» f q k = .ok rs) :
    rs.Chain' (fun a b => b.score ≤ a.score) := by
  simp only [TfidfMatcher.«match»] at h
  split at h
  · exact absurd h (by simp)
  split at h
  · exact absurd h (by simp)
  · injection h with h
    rw [← h]
    rw [List.chain'_map]
    apply headPy_chain
    exact nargsortDesc_idx_chain (simsOf (corpusOf f) q) 0

/-- Evaluation of match for a query with no vocabulary overlap: every score
is zero and the rows keep corpus order. -/
theorem match_oov_eval {f : Frame} {q : String} (k : Int)
    (hmt : f.hasMatchText = true)
    (hv : buildVocab (corpusOf f) ≠ [])
    (hoov : ∀ t ∈ buildVocab (corpusOf f), (analyze q).count t = 0) :
    TfidfMatcher.«match» f q k = .ok ((headPy k (List.range f.rows.length)).map
      (fun i =>
        { score := 0
          title := dispCell f.hasTitle (f.rows.getD i default).title (Cell.str "")
          category := dispCell f.hasCategory (f.rows.getD i default).category (Cell.str "")
          budget := dispCell f.hasBudget (f.rows.getD i default).budget (Cell.str "")
          time_left := dispCell f.hasTimeLeft (f.rows.getD i default).time_left (Cell.str "")
          bids_count := dispCell f.hasBidsCount (f.rows.getD i default).bids_count (Cell.int 0)
          url := dispCell f.hasUrl (f.rows.getD i default).url (Cell.str "") })) := by
  simp only [TfidfMatcher.«match», hmt, Bool.not_true, Bool.false_eq_true,
    if_false, fitCheck]
  rw [if_neg hv]
  rw [simsOf_oov _ _ hoov, corpusOf_length, nargsortDesc_replicate]
  exact congrArg Except.ok (List.map_congr_left (fun i hi => by
    rw [getD_replicate_zero]))

theorem headPy_mem {α : Type} {k : Int} {xs : List α} {x : α}
    (h : x ∈ headPy k xs) : x ∈ xs := by
  unfold headPy at h
  split at h
  · exact List.mem_of_mem_take h
  · exact List.mem_of_mem_take h

theorem nargsortDesc_mem_lt {α : Type} [LinearOrder α] {xs : List α} {i : Nat}
    (h : i ∈ nargsortDesc xs) : i < xs.length := by
  unfold nargsortDesc at h
  rw [List.mem_reverse] at h
  obtain ⟨j, hj, hje⟩ := List.mem_map.mp h
  have hjlt : j < xs.length := by
    have := argsortAsc_mem_lt hj
    simpa using this
  rw [← hje, List.getD_eq_getD_get?, List.get?_eq_getElem?,
    List.getElem?_reverse (by simpa using hjlt), List.length_range,
    List.getElem?_range (by omega)]
  simp
  omega

/-- Column filling of match: a display column absent from the input is the
empty string (zero for bids_count) in every result row, and a present column
is copied from the corpus row the result row stems from. -/
theorem match_ok_mem {f : Frame} {q : String} {k : Int} {rs : List MatchRow}
    (h : TfidfMatcher.«match» f q k = .ok rs) :
    ∀ r ∈ rs,
      (f.hasTitle = false → r.title = Cell.str "") ∧
      (f.hasCategory = false → r.category = Cell.str "") ∧
      (f.hasBudget = false → r.budget = Cell.str "") ∧
      (f.hasTimeLeft = false → r.time_left = Cell.str "") ∧
      (f.hasBidsCount = false → r.bids_count = Cell.int 0) ∧
      (f.hasUrl = false → r.url = Cell.str "") ∧
      ∃ r0 ∈ f.rows,
        (f.hasTitle = true → r.title = r0.title) ∧
        (f.hasCategory = true → r.category = r0.category) ∧
        (f.hasBudget = true → r.budget = r0.budget) ∧
        (f.hasTimeLeft = true → r.time_left = r0.time_left) ∧
        (f.hasBidsCount = true → r.bids_count = r0.bids_count) ∧
        (f.hasUrl = true → r.url = r0.url) := by
  simp only [TfidfMatcher.«match»] at h
  split at h
  · exact absurd h (by simp)
  split at h
  · exact absurd h (by simp)
  · injection h with h
    intro r hr
    rw [← h] at hr
    obtain ⟨i, hi, hie⟩ := List.mem_map.mp hr
    have hilt : i < f.rows.length := by
      have h1 := nargsortDesc_mem_lt (headPy_mem hi)
      rwa [simsOf_length, corpusOf_length] at h1
    have hmem : f.rows.getD i default ∈ f.rows := by
      rw [List.getD_eq_getElem _ _ hilt]
      exact List.getElem_mem _
    subst hie
    refine ⟨?_, ?_, ?_, ?_, ?_, ?_, f.rows.getD i default, hmem,
      ?_, ?_, ?_, ?_, ?_, ?_⟩ <;>
      intro hb <;> simp [dispCell, hb]

/-! ## Claims -/

/-- Claim C1, counterexample: a record whose title is missing is not
dropped.  The single input record has a missing (NaN) title; cleaning keeps
it, with the title coerced by astype(str) to the literal string nan, which
survives the empty-string filter. -/
theorem c1_counterexample :
    c1Frame.rows.map (fun r => r.title) = [Cell.na] ∧
    (clean_projects c1Frame).map (fun g => g.rows.map (fun r => r.title)) =
      Except.ok [Cell.str "nan"] :=
  ⟨rfl, by rfl⟩

/-- Claim C1 (amended): records whose title, description or url is empty
after trimming are dropped; a missing value however is first coerced by
astype(str) to the non-empty string nan and therefore kept; in the cleaned
output every record has a non-empty string title, description and url. -/
theorem c1_amended {df g : Frame} (h : clean_projects df = .ok g) :
    ∀ r ∈ g.rows,
      (∃ t, r.title = Cell.str t ∧ t ≠ "") ∧
      (∃ d, r.description = Cell.str d ∧ d ≠ "") ∧
      (∃ u, r.url = Cell.str u ∧ u ≠ "") := by
  intro r hr
  obtain ⟨⟨t, ht, _, htne⟩, ⟨d, hd, _, hdne, _⟩, ⟨u, hu, _, hune⟩, _⟩ :=
    clean_projects_ok_facts h r hr
  exact ⟨⟨t, ht, htne⟩, ⟨d, hd, hdne⟩, ⟨u, hu, hune⟩⟩

theorem c1_witness :
    clean_projects exFrame = Except.ok exClean ∧
    ∀ r ∈ exClean.rows,
      (∃ t, r.title = Cell.str t ∧ t ≠ "") ∧
      (∃ d, r.description = Cell.str d ∧ d ≠ "") ∧
      (∃ u, r.url = Cell.str u ∧ u ≠ "") :=
  ⟨by rfl, @c1_amended exFrame exClean (by rfl)⟩

/-- Claim C4: after cleaning, every url appears exactly once, the kept row
for a url is the first one carrying it (stated against the rows right before
deduplication, in preserved order), and cleaning is idempotent:
clean(clean(x)) = clean(x). -/
theorem c4_dedup_idempotent {df g0 g : Frame}
    (hcore : cleanCore df = .ok g0) (h : clean_projects df = .ok g) :
    (g.rows.map (fun r => r.url)).Nodup ∧
    g.rows.Sublist g0.rows ∧
    (∀ r ∈ g.rows, g0.rows.find? (fun r2 => r2.url == r.url) = some r) ∧
    clean_projects g = .ok g := by
  obtain ⟨_, _, _, _, g0', hcore', hg⟩ := clean_projects_ok_decomp h
  rw [hcore] at hcore'
  injection hcore' with he
  subst he
  refine ⟨?_, ?_, ?_, clean_projects_idem h⟩
  · rw [hg]
    exact dedupByUrl_nodup g0.rows
  · rw [hg]
    exact dedupByUrlAux_sublist [] g0.rows
  · intro r hr
    rw [hg] at hr
    exact (dedupByUrlAux_find [] g0.rows r hr).2

theorem c4_witness :
    cleanCore exFrame = Except.ok exCore ∧
    clean_projects exFrame = Except.ok exClean ∧
    ((exClean.rows.map (fun r => r.url)).Nodup ∧
     exClean.rows.Sublist exCore.rows ∧
     (∀ r ∈ exClean.rows, exCore.rows.find? (fun r2 => r2.url == r.url) = some r) ∧
     clean_projects exClean = Except.ok exClean) :=
  ⟨by rfl, by rfl, @c4_dedup_idempotent exFrame exCore exClean (by rfl) (by rfl)⟩

/-- Claim C5, counterexample: a non-numeric bids_count is not substituted
with 0; clean raises the ValueError of astype(int) instead. -/
theorem c5_counterexample :
    c5Frame.rows.map (fun r => r.bids_count) = [Cell.str "abc"] ∧
    clean_projects c5Frame =
      Except.error "invalid literal for int() with base 10: abc" :=
  ⟨rfl, by rfl⟩

theorem scraper_extract_bids_nonneg (s : Option String) :
    0 ≤ scraper_extract_bids s := by
  unfold scraper_extract_bids
  split
  · norm_num
  · split
    · norm_num
    · exact Int.natCast_nonneg _

/-- Claim C5 (amended): when cleaning succeeds, every cleaned bids_count is
the integer coercion of the bids cell of an input row, with 0 substituted
for a missing value; non-numeric values make clean fail instead of becoming
0; the result is a non-negative integer whenever the surviving input values
are non-negative, as those produced by the scraper are (its extraction
yields a natural count, defaulting to 0). -/
theorem c5_amended {df g : Frame} (h1 : clean_projects df = .ok g)
    (h2 : df.hasBidsCount = true)
    (h3 : ∀ r ∈ df.rows, bidsInputOk r.bids_count = true) :
    (∀ r ∈ g.rows, ∃ r0 ∈ df.rows,
      pyIntCell (fillnaCell (Cell.int 0) r0.bids_count) = .ok r.bids_count ∧
      (r0.bids_count = Cell.na → r.bids_count = Cell.int 0) ∧
      ∃ n : Int, r.bids_count = Cell.int n ∧ 0 ≤ n) ∧
    ∀ s, 0 ≤ scraper_extract_bids s := by
  refine ⟨?_, scraper_extract_bids_nonneg⟩
  obtain ⟨_, _, _, _, g0, hcore, hg⟩ := clean_projects_ok_decomp h1
  intro r hr
  rw [hg] at hr
  have hr0 : r ∈ g0.rows := (dedupByUrlAux_sublist [] g0.rows).mem hr
  obtain ⟨r0, hr0mem, _, _, _, _, _, _, _, _, _, _, _, _, _, _, _, hbiT, _⟩ :=
    cleanCore_ok_mem hcore r hr0
  have hrel := hbiT h2
  refine ⟨r0, hr0mem, hrel, ?_, ?_⟩
  · intro hna
    rw [hna] at hrel
    have : pyIntCell (fillnaCell (Cell.int 0) Cell.na) = .ok (Cell.int 0) := rfl
    rw [this] at hrel
    injection hrel with hrel
    exact hrel.symm
  · have h3r := h3 r0 hr0mem
    cases hc : r0.bids_count with
    | na =>
      rw [hc] at hrel
      have : pyIntCell (fillnaCell (Cell.int 0) Cell.na) = .ok (Cell.int 0) := rfl
      rw [this] at hrel
      injection hrel with hrel
      exact ⟨0, hrel.symm, le_refl 0⟩
    | int n =>
      rw [hc] at hrel
      have : pyIntCell (fillnaCell (Cell.int 0) (Cell.int n)) = .ok (Cell.int n) := rfl
      rw [this] at hrel
      injection hrel with hrel
      refine ⟨n, hrel.symm, ?_⟩
      rw [hc] at h3r
      simpa [bidsInputOk] using h3r
    | str s =>
      rw [hc] at hrel
      have hfill : fillnaCell (Cell.int 0) (Cell.str s) = Cell.str s := rfl
      rw [hfill] at hrel
      rw [hc] at h3r
      simp only [pyIntCell] at hrel
      cases hps : pyIntOfString s with
      | none => rw [hps] at hrel; exact absurd hrel (by simp)
      | some n =>
        rw [hps] at hrel
        injection hrel with hrel
        refine ⟨n, hrel.symm, ?_⟩
        simp only [bidsInputOk, hps] at h3r
        simpa using h3r
    | strList xs =>
      rw [hc] at hrel
      have hfill : fillnaCell (Cell.int 0) (Cell.strList xs) = Cell.strList xs := rfl
      rw [hfill] at hrel
      exact absurd hrel (by simp [pyIntCell])

theorem c5_witness :
    clean_projects c5GoodFrame = Except.ok c5GoodClean ∧
    c5GoodFrame.hasBidsCount = true ∧
    (∀ r ∈ c5GoodFrame.rows, bidsInputOk r.bids_count = true) ∧
    ((∀ r ∈ c5GoodClean.rows, ∃ r0 ∈ c5GoodFrame.rows,
      pyIntCell (fillnaCell (Cell.int 0) r0.bids_count) = .ok r.bids_count ∧
      (r0.bids_count = Cell.na → r.bids_count = Cell.int 0) ∧
      ∃ n : Int, r.bids_count = Cell.int n ∧ 0 ≤ n) ∧
     ∀ s, 0 ≤ scraper_extract_bids s) :=
  ⟨by rfl, rfl, by decide,
    @c5_amended c5GoodFrame c5GoodClean (by rfl) rfl (by decide)⟩

/-- Claim C6: skills normalisation is format-agnostic: the native list, the
bracketed string representation and the bare comma-separated string all
normalise to the same ordered sequence, and a missing value becomes the
empty sequence. -/
theorem c6_skills_format_agnostic :
    _ensure_list (Cell.strList ["a", "b"]) = ["a", "b"] ∧
    _ensure_list (Cell.str "['a','b']") = ["a", "b"] ∧
    _ensure_list (Cell.str "a, b") = ["a", "b"] ∧
    _ensure_list Cell.na = [] :=
  ⟨rfl, by rfl, by rfl, rfl⟩

/-- Claim C2, counterexample: with a two-document corpus and top_k = -1 the
result has one row, not zero: DataFrame.head(-1) keeps all but the last row. -/
theorem c2_counterexample :
    matchFrame.rows.length = 2 ∧
    (TfidfMatcher.«match» matchFrame "zzqqxx" (-1)).map (fun rs => rs.length) =
      Except.ok 1 := by
  refine ⟨rfl, ?_⟩
  rw [match_oov_eval (-1) rfl (by decide) (by decide)]
  rfl

theorem match_ok_exists (f : Frame) (q : String) (k : Int)
    (hmt : f.hasMatchText = true) (hv : buildVocab (corpusOf f) ≠ []) :
    ∃ rs, TfidfMatcher.«match» f q k = .ok rs := by
  simp only [TfidfMatcher.«match», hmt, Bool.not_true, Bool.false_eq_true,
    if_false, fitCheck]
  rw [if_neg hv]
  exact ⟨_, rfl⟩

/-- Claim C2 (amended): whenever the corpus has a usable vocabulary, match
succeeds and returns min(k, corpus size) rows for k at least 0; for negative
k, head keeps all but the last rows, so the result has corpus size + k rows
(truncated at zero), not zero rows. -/
theorem c2_amended {f : Frame} (q : String) (k : Int)
    (hmt : f.hasMatchText = true) (hv : buildVocab (corpusOf f) ≠ []) :
    ∃ rs, TfidfMatcher.«match» f q k = .ok rs ∧
      rs.length = (if 0 ≤ k then min k.toNat f.rows.length
        else f.rows.length - (-k).toNat) := by
  obtain ⟨rs, hrs⟩ := match_ok_exists f q k hmt hv
  exact ⟨rs, hrs, match_ok_length hrs⟩

theorem c2_witness :
    matchFrame.hasMatchText = true ∧
    buildVocab (corpusOf matchFrame) ≠ [] ∧
    (∃ rs, TfidfMatcher.«match» matchFrame "python flask developer" 1 = .ok rs ∧
      rs.length = (if 0 ≤ (1 : Int) then min (1 : Int).toNat matchFrame.rows.length
        else matchFrame.rows.length - (-(1 : Int)).toNat)) :=
  ⟨rfl, by decide, c2_amended "python flask developer" 1 rfl (by decide)⟩

/-- Claim C3 (descending half): the rows a successful match returns are
sorted by score in non-increasing order; on the error paths the empty list
holds trivially. -/
theorem c3_sorted_descending (f : Frame) (q : String) (k : Int) :
    ((TfidfMatcher.«match» f q k).toOption.getD []).Chain'
      (fun a b => b.score ≤ a.score) := by
  cases hm : TfidfMatcher.«match» f q k with
  | error e => simp [Except.toOption]
  | ok rs =>
    have := match_ok_chain hm
    simpa [Except.toOption] using this

/-- Claim C8, counterexample: match on an empty corpus does not return an
empty result; fitting the vectorizer on the empty corpus raises its
empty-vocabulary ValueError. -/
theorem c8_counterexample :
    emptyCorpusFrame.hasMatchText = true ∧
    emptyCorpusFrame.rows = [] ∧
    TfidfMatcher.«match» emptyCorpusFrame "python developer" 10 =
      Except.error "empty vocabulary; perhaps the documents only contain stop words" :=
  ⟨rfl, rfl, by rfl⟩

/-- Claim C8 (amended): for every query and topK, match on an empty corpus
fails with the empty-vocabulary error of the vectorizer instead of returning
an empty result. -/
theorem c8_amended {f : Frame} (q : String) (k : Int)
    (hmt : f.hasMatchText = true) (hrows : f.rows = []) :
    TfidfMatcher.«match» f q k =
      Except.error "empty vocabulary; perhaps the documents only contain stop words" := by
  have hc : corpusOf f = [] := by
    unfold corpusOf
    rw [hrows]
    rfl
  simp only [TfidfMatcher.«match», hmt, Bool.not_true, Bool.false_eq_true,
    if_false, fitCheck, hc]
  rfl

theorem c8_witness :
    emptyCorpusFrame.hasMatchText = true ∧
    emptyCorpusFrame.rows = [] ∧
    TfidfMatcher.«match» emptyCorpusFrame "web scraping expert" 3 =
      Except.error "empty vocabulary; perhaps the documents only contain stop words" :=
  ⟨rfl, rfl, @c8_amended emptyCorpusFrame "web scraping expert" 3 rfl rfl⟩

/-- Claim C10: the result of match consists exactly of the columns score,
title, category, budget, time_left, bids_count, url in that order (the
fields of MatchRow, mirroring the column selection of the source); a display
column absent from the input is present in the result filled with the empty
string (0 for bids_count), and a present column is copied from the matched
corpus row. -/
theorem c10_result_columns {f : Frame} {q : String} {k : Int}
    {rs : List MatchRow} (h : TfidfMatcher.«match» f q k = .ok rs) :
    ∀ r ∈ rs,
      (f.hasTitle = false → r.title = Cell.str "") ∧
      (f.hasCategory = false → r.category = Cell.str "") ∧
      (f.hasBudget = false → r.budget = Cell.str "") ∧
      (f.hasTimeLeft = false → r.time_left = Cell.str "") ∧
      (f.hasBidsCount = false → r.bids_count = Cell.int 0) ∧
      (f.hasUrl = false → r.url = Cell.str "") ∧
      ∃ r0 ∈ f.rows,
        (f.hasTitle = true → r.title = r0.title) ∧
        (f.hasCategory = true → r.category = r0.category) ∧
        (f.hasBudget = true → r.budget = r0.budget) ∧
        (f.hasTimeLeft = true → r.time_left = r0.time_left) ∧
        (f.hasBidsCount = true → r.bids_count = r0.bids_count) ∧
        (f.hasUrl = true → r.url = r0.url) :=
  match_ok_mem h

theorem c10_witness :
    TfidfMatcher.«match» matchFrame "zzqqxx" 2 = Except.ok c10Rows ∧
    ∀ r ∈ c10Rows,
      (matchFrame.hasTitle = false → r.title = Cell.str "") ∧
      (matchFrame.hasCategory = false → r.category = Cell.str "") ∧
      (matchFrame.hasBudget = false → r.budget = Cell.str "") ∧
      (matchFrame.hasTimeLeft = false → r.time_left = Cell.str "") ∧
      (matchFrame.hasBidsCount = false → r.bids_count = Cell.int 0) ∧
      (matchFrame.hasUrl = false → r.url = Cell.str "") ∧
      ∃ r0 ∈ matchFrame.rows,
        (matchFrame.hasTitle = true → r.title = r0.title) ∧
        (matchFrame.hasCategory = true → r.category = r0.category) ∧
        (matchFrame.hasBudget = true → r.budget = r0.budget) ∧
        (matchFrame.hasTimeLeft = true → r.time_left = r0.time_left) ∧
        (matchFrame.hasBidsCount = true → r.bids_count = r0.bids_count) ∧
        (matchFrame.hasUrl = true → r.url = r0.url) :=
  have hm : TfidfMatcher.«match» matchFrame "zzqqxx" 2 = Except.ok c10Rows :=
    @match_oov_eval matchFrame "zzqqxx" 2 rfl (by decide) (by decide)
  ⟨hm, c10_result_columns hm⟩

/-- Claim C7, counterexample: a path that does not exist but whose extension
is unsupported raises the unsupported-format error, not the not-found error:
the extension dispatch precedes any look at the filesystem. -/
theorem c7_counterexample :
    emptyFs.pathExists "cv.txt" = false ∧
    extract_cv_text emptyFs "cv.txt" = Except.error CvError.unsupportedFormat :=
  ⟨rfl, by rfl⟩

/-- Claim C7 (amended): extract checks the extension first, so an
unsupported extension fails with the unsupported-format error even when the
path does not exist; a supported extension with a missing path fails with
the not-found error; no other structural error is raised. -/
theorem c7_amended (fs : FileSys) (path : String) :
    (pyLower (pathSuffix path) ≠ ".pdf" → pyLower (pathSuffix path) ≠ ".docx" →
      extract_cv_text fs path = Except.error CvError.unsupportedFormat) ∧
    (fs.pathExists path = false →
      (pyLower (pathSuffix path) = ".pdf" ∨ pyLower (pathSuffix path) = ".docx") →
      extract_cv_text fs path = Except.error CvError.notFound) ∧
    ∀ e, extract_cv_text fs path = Except.error e →
      e = CvError.unsupportedFormat ∨ e = CvError.notFound := by
  refine ⟨?_, ?_, ?_⟩
  · intro h1 h2
    simp [extract_cv_text, h1, h2]
  · intro hex hor
    rcases hor with hc | hc
    · simp [extract_cv_text, hc, extract_text_from_pdf, hex]
    · by_cases hpdf : pyLower (pathSuffix path) = ".pdf"
      · simp [extract_cv_text, hpdf, extract_text_from_pdf, hex]
      · simp [extract_cv_text, hc, hpdf, extract_text_from_docx, hex]
  · intro e he
    simp only [extract_cv_text] at he
    split at he
    · unfold extract_text_from_pdf at he
      split at he
      · injection he with he
        exact Or.inr he.symm
      · exact absurd he (by simp)
    · split at he
      · unfold extract_text_from_docx at he
        split at he
        · injection he with he
          exact Or.inr he.symm
        · exact absurd he (by simp)
      · injection he with he
        exact Or.inl he.symm

theorem c7_witness :
    emptyFs.pathExists "cv.pdf" = false ∧
    extract_cv_text emptyFs "cv.pdf" = Except.error CvError.notFound :=
  ⟨rfl, (c7_amended emptyFs "cv.pdf").2.1 rfl (Or.inl (by rfl))⟩

/-- Claim C9: clean_projects never mutates the dataframe object its caller
passed; the first statement rebinds the local name to a copy and every later
in-place column assignment lands on that copy, while the object-level run
computes exactly the value-level clean_projects. -/
theorem c9_no_input_mutation (df : Frame) :
    (clean_projects_exec df).1.callerObj = df ∧
    (clean_projects_exec df).2 = clean_projects df :=
  ⟨clean_projects_exec_caller df, clean_projects_exec_result df⟩
